import Mathlib

/-! Collaborative drawing canvas: `client/canvas.js`

A shallow embedding of `CanvasManager` (flood fill, the local draw state
machine, remote replay, redraw, undo, redo and bootstrap) together with the
properties checked against it.

Modelling conventions
* JavaScript numbers that carry canvas coordinates are rationals (`ℚ`);
  pixel coordinates obtained from `Math.floor` are integers.
* A property that is `undefined` in JavaScript is `none`.
* The `ImageData` byte array is a `List Nat` (RGBA, row major).  Reads outside
  the array give `undefined`, writes outside the array are ignored, as for a
  typed array.
* Stroke objects live in a heap (`CanvasManager.heap`), because the source
  shares one object between `currentStroke` and the `strokes` map.
* A thrown `TypeError` is the outcome `Outcome.threw`, carrying the state
  reached when it was thrown.
* Arithmetic is exact (no rounding, no overflow); `getImageData` followed by
  `putImageData` restores the bytes it read; the effect of vector drawing calls
  on the bytes is left to the host (`Host.paint`).
* Stroke ids, which the source draws from the clock and `Math.random`, are
  arguments.  Messages sent through `window.wsManager` are not modelled.
-/

namespace Canvas

/-! ## Colours and pixels -/

/-- A pixel colour as read by `getPixelColor`: each channel is `none` when the
array read gives `undefined`. -/
structure Pixel where
  r : Option Nat
  g : Option Nat
  b : Option Nat
  a : Option Nat
deriving DecidableEq, Repr

/-- A colour string `"#RRGGBB"`, kept as the three values that
`parseInt(color.slice(..), 16)` yields. -/
structure Color where
  r : Fin 256
  g : Fin 256
  b : Fin 256
deriving DecidableEq, Repr

/-- The object `{ r: fillR, g: fillG, b: fillB }` built in `floodFill`; it has no `a`. -/
def Color.toPixel (c : Color) : Pixel :=
  { r := some c.r.val, g := some c.g.val, b := some c.b.val, a := none }

/-- The read `data[i]` of a typed array at an integer index. -/
def readByte (data : List Nat) (i : Int) : Option Nat :=
  if 0 ≤ i then data[i.toNat]? else none

/-- The write `data[i] = v` of a typed array: ignored outside the array. -/
def writeByte (data : List Nat) (i : Int) (v : Nat) : List Nat :=
  if 0 ≤ i then data.set i.toNat v else data

/-- Method `getPixelColor(data, x, y, width)`; `Math.floor` is the identity on the integer
coordinates it is called with. -/
def getPixelColor (data : List Nat) (x y : Int) (width : Nat) : Pixel :=
  let index : Int := (y * (width : Int) + x) * 4
  { r := readByte data index
    g := readByte data (index + 1)
    b := readByte data (index + 2)
    a := readByte data (index + 3) }

/-- Method `setPixelColor(data, x, y, width, r, g, b)`. -/
def setPixelColor (data : List Nat) (x y : Int) (width : Nat) (r g b : Nat) : List Nat :=
  let index : Int := (y * (width : Int) + x) * 4
  writeByte (writeByte (writeByte (writeByte data index r) (index + 1) g) (index + 2) b)
    (index + 3) 255

/-- One conjunct of `colorsMatch`: `Math.abs(c1 - c2) < threshold` with threshold 10;
an `undefined` operand makes the difference `NaN` and the comparison false. -/
def channelNear (c1 c2 : Option Nat) : Bool :=
  match c1, c2 with
  | some u, some v => decide (Int.natAbs ((u : Int) - (v : Int)) < 10)
  | _, _ => false

/-- Method `colorsMatch(color1, color2)`: alpha is not compared. -/
def colorsMatch (color1 color2 : Pixel) : Bool :=
  channelNear color1.r color2.r && channelNear color1.g color2.g &&
    channelNear color1.b color2.b

/-! ## Flood fill loop -/

/-- The three locals of the `while` loop of `floodFill`.  `stack` has its top
(the end of the JavaScript array) at the head; `visited` holds the coordinates
whose key `"x,y"` is in the `Set`. -/
structure FillLoop where
  stack : List (Int × Int)
  visited : List (Int × Int)
  pixelsToFill : List (Int × Int)
deriving DecidableEq, Repr

/-- The loop condition `stack.length > 0 && stack.length < 10000`. -/
def loopCond (st : FillLoop) : Bool :=
  decide (0 < st.stack.length) && decide (st.stack.length < 10000)

/-- One execution of the loop body (on an empty stack nothing happens; the loop
condition excludes that case). -/
def floodBody (data : List Nat) (width height : Nat) (targetColor : Pixel)
    (st : FillLoop) : FillLoop :=
  match st.stack with
  | [] => st
  | (x, y) :: rest =>
    if (x, y) ∈ st.visited ∨ x < 0 ∨ x ≥ (width : Int) ∨ y < 0 ∨ y ≥ (height : Int) then
      { st with stack := rest }
    else if colorsMatch (getPixelColor data x y width) targetColor = false then
      { st with stack := rest }
    else
      { stack := (x, y - 1) :: (x, y + 1) :: (x - 1, y) :: (x + 1, y) :: rest
        visited := (x, y) :: st.visited
        pixelsToFill := st.pixelsToFill ++ [(x, y)] }

/-- The `while` loop, run for at most `fuel` iterations. -/
def floodLoop (data : List Nat) (width height : Nat) (targetColor : Pixel) :
    Nat → FillLoop → FillLoop
  | 0, st => st
  | fuel + 1, st =>
    if loopCond st then floodLoop data width height targetColor fuel
      (floodBody data width height targetColor st)
    else st

/-- The state in which the loop is entered. -/
def floodInit (sx sy : Int) : FillLoop :=
  { stack := [(sx, sy)], visited := [], pixelsToFill := [] }

/-- The state in which the loop of `floodFill` is left.  The fuel `4 * width * height + 1`
is never exhausted (`floodRun_exits`). -/
def floodRun (data : List Nat) (width height : Nat) (sx sy : Int) : FillLoop :=
  floodLoop data width height (getPixelColor data sx sy width) (4 * width * height + 1)
    (floodInit sx sy)

/-! ## Strokes and the canvas manager -/

/-- A coordinate object `{ x, y }`. -/
structure Point where
  x : ℚ
  y : ℚ
deriving DecidableEq, Repr

/-- The tool names of the toolbar. -/
inductive Tool where
  | brush | eraser | sparkle | line | rectangle | square | circle | triangle | fill
deriving DecidableEq, Repr

/-- The test `tool === 'line' || tool === 'rectangle' || tool === 'square' ||
tool === 'circle' || tool === 'triangle'`. -/
def Tool.isShape : Tool → Bool
  | .line | .rectangle | .square | .circle | .triangle => true
  | _ => false

/-- A stroke object.  A field the object does not have (or holds `null`) is `none`. -/
structure Stroke where
  id : String
  points : Option (List Point)
  color : Color
  lineWidth : ℚ
  tool : Tool
  userId : Option String
  start : Option Point
  end_ : Option Point
  fillPixels : Option (List (Int × Int))
deriving DecidableEq, Repr

/-- The drawing calls issued on the 2D context, one constructor per group of calls
that the source issues together. -/
inductive CtxOp where
  | clearRect
  | drawPoint (point : Point) (lineWidth : ℚ) (color : Color)
  | drawLine (src dst : Point) (color : Color) (lineWidth : ℚ) (eraser : Bool)
  | sparkle (x y : ℚ) (color : Color) (lineWidth : ℚ)
  | polyline (points : List Point) (color : Color) (lineWidth : ℚ)
  | preview (tool : Tool) (start end_ : Point) (color : Color) (lineWidth : ℚ)
deriving DecidableEq, Repr

/-- What the browser supplies: the rasteriser behind the 2D context (the bytes of the
canvas after a drawing call, from its width, height and bytes before) and the
`Math` functions used for circles and triangles. -/
structure Host where
  paint : CtxOp → Nat → Nat → List Nat → List Nat
  cos : ℚ → ℚ
  sin : ℚ → ℚ
  PI : ℚ

/-- The fields of `CanvasManager`.  `data` is the content of the main canvas as
`getImageData` returns it; `strokes` is the `Map` in insertion order, from stroke id to
the heap address of the stroke object; `currentStroke` is a heap address. -/
structure CanvasManager where
  width : Nat
  height : Nat
  data : List Nat
  isDrawing : Bool
  currentStroke : Option Nat
  startPoint : Option Point
  strokes : List (String × Nat)
  heap : List Stroke
  tool : Tool
  color : Color
  lineWidth : ℚ
deriving DecidableEq, Repr

/-- The result of running a method: it returned, or a `TypeError` escaped it. -/
inductive Outcome where
  | ok (s : CanvasManager)
  | threw (s : CanvasManager)
deriving DecidableEq, Repr

/-- Sequencing: a thrown error skips the rest. -/
def Outcome.bind : Outcome → (CanvasManager → Outcome) → Outcome
  | .ok s, f => f s
  | .threw s, _ => .threw s

/-- The state an outcome carries. -/
def Outcome.state : Outcome → CanvasManager
  | .ok s => s
  | .threw s => s

/-- Method `Map.prototype.set`: an existing key keeps its place, a new key goes last. -/
def mapSet : List (String × Nat) → String → Nat → List (String × Nat)
  | [], k, v => [(k, v)]
  | (k', v') :: m, k, v => if k' = k then (k, v) :: m else (k', v') :: mapSet m k v

/-- Method `Map.prototype.get`. -/
def mapGet : List (String × Nat) → String → Option Nat
  | [], _ => none
  | (k', v') :: m, k => if k' = k then some v' else mapGet m k

/-- The stroke object stored under an id, `this.strokes.get(id)`. -/
def CanvasManager.getStroke (s : CanvasManager) (id : String) : Option Stroke :=
  match mapGet s.strokes id with
  | none => none
  | some ref => s.heap[ref]?

/-- A drawing call on the main context. -/
def CanvasManager.ctx (E : Host) (op : CtxOp) (s : CanvasManager) : CanvasManager :=
  { s with data := E.paint op s.width s.height s.data }

/-- The colour `'#FFFFFF'`. -/
def white : Color := { r := 255, g := 255, b := 255 }

/-- The `forEach` over a pixel list that calls
`setPixelColor(data, x, y, width, fillR, fillG, fillB)` for each entry. -/
def putPixels (data : List Nat) (width : Nat) (c : Color) (pixels : List (Int × Int)) :
    List Nat :=
  pixels.foldl (fun d p => setPixelColor d p.1 p.2 width c.r.val c.g.val c.b.val) data

/-- Method `addSparkle(x, y, color)`: draws, then pushes `{ x, y }` onto
`this.currentStroke.points` when there is a current stroke. -/
def addSparkle (E : Host) (s : CanvasManager) (x y : ℚ) (color : Color) : Outcome :=
  let s1 := s.ctx E (.sparkle x y color s.lineWidth)
  match s1.currentStroke with
  | none => .ok s1
  | some ref =>
    match s1.heap[ref]? with
    | none => .ok s1
    | some cs =>
      match cs.points with
      | none => .threw s1
      | some pts =>
        .ok { s1 with heap := s1.heap.set ref { cs with points := some (pts ++ [⟨x, y⟩]) } }

/-- Method `drawPoint(point, stroke)`. -/
def drawPoint (E : Host) (s : CanvasManager) (point : Point) (stroke : Stroke) :
    CanvasManager :=
  s.ctx E (.drawPoint point stroke.lineWidth stroke.color)

/-- Method `drawLine(from, to, stroke)`. -/
def drawLine (E : Host) (s : CanvasManager) (src dst : Point) (stroke : Stroke) :
    CanvasManager :=
  s.ctx E (.drawLine src dst stroke.color stroke.lineWidth (decide (stroke.tool = .eraser)))

/-- The `forEach` of the sparkle branch of `redrawStroke`. -/
def sparkleEach (E : Host) (color : Color) : List Point → CanvasManager → Outcome
  | [], s => .ok s
  | p :: rest, s => (addSparkle E s p.x p.y color).bind (sparkleEach E color rest)

/-- The `for` loop of the last branch of `redrawStroke`:
`drawLine(points[i - 1], points[i], stroke)` for `i = 1 .. length - 1`. -/
def drawSegments (E : Host) (stroke : Stroke) : List Point → CanvasManager → CanvasManager
  | p :: q :: rest, s => drawSegments E stroke (q :: rest) (drawLine E s p q stroke)
  | _, s => s

/-- Method `redrawStroke(stroke)`. -/
def redrawStroke (E : Host) (s : CanvasManager) (stroke : Stroke) : Outcome :=
  match stroke.tool, stroke.fillPixels with
  | .fill, some fillPixels =>
    .ok { s with data := putPixels s.data s.width stroke.color fillPixels }
  | _, _ =>
    match stroke.points with
    | none => .ok s
    | some [] => .ok s
    | some (p0 :: ps) =>
      let points := p0 :: ps
      if stroke.tool = .line ∧ points.length ≥ 2 then
        .ok (s.ctx E (.polyline (points.take 2) stroke.color stroke.lineWidth))
      else if stroke.tool = .rectangle ∧ points.length ≥ 4 then
        .ok (s.ctx E (.polyline points stroke.color stroke.lineWidth))
      else if stroke.tool = .square ∧ points.length ≥ 4 then
        .ok (s.ctx E (.polyline points stroke.color stroke.lineWidth))
      else if stroke.tool = .circle then
        .ok (s.ctx E (.polyline points stroke.color stroke.lineWidth))
      else if stroke.tool = .triangle ∧ points.length ≥ 3 then
        .ok (s.ctx E (.polyline points stroke.color stroke.lineWidth))
      else if stroke.tool = .sparkle then
        sparkleEach E stroke.color points s
      else
        .ok (drawSegments E stroke points (drawPoint E s p0 stroke))

/-- The `forEach` of `redraw`, over the entries of the map. -/
def redrawEach (E : Host) : List (String × Nat) → CanvasManager → Outcome
  | [], s => .ok s
  | (_, ref) :: rest, s =>
    match s.heap[ref]? with
    | none => redrawEach E rest s
    | some stroke => (redrawStroke E s stroke).bind (redrawEach E rest)

/-- Method `redraw()`. -/
def redraw (E : Host) (s : CanvasManager) : Outcome :=
  redrawEach E s.strokes (s.ctx E .clearRect)

/-- Method `clearPreview()`. -/
def clearPreview (E : Host) (s : CanvasManager) : Outcome :=
  redraw E s

/-- Method `drawPreview()`: clears the preview by a full redraw, then draws the shape of
`this.tool` from `currentStroke.start` and `currentStroke.end` (reading `.x` of a missing
anchor throws). -/
def drawPreview (E : Host) (s : CanvasManager) : Outcome :=
  match s.currentStroke with
  | none => .ok s
  | some ref =>
    (clearPreview E s).bind fun s1 =>
      match s1.heap[ref]? with
      | none => .ok s1
      | some cs =>
        if s1.tool.isShape then
          match cs.start, cs.end_ with
          | some a, some b => .ok (s1.ctx E (.preview s1.tool a b cs.color cs.lineWidth))
          | _, _ => .threw s1
        else .ok s1

/-! ## Geometry expansion -/

/-- The point list that `finishShape` builds for `this.tool` from `currentStroke.start`
and `currentStroke.end` (lines 327-389).  `none` stands for the `TypeError` raised by
reading `.x` of a missing anchor; for `line`, where the source would build
`[undefined, undefined]` and fail in the redraw that follows, the model reports the
failure at once. -/
def finishShapePoints (E : Host) (tool : Tool) (start end_ : Option Point) :
    Option (List Point) :=
  match tool with
  | .line =>
    match start, end_ with
    | some s, some e => some [s, e]
    | _, _ => none
  | .rectangle =>
    match start, end_ with
    | some s, some e =>
      let x := min s.x e.x
      let y := min s.y e.y
      let width := |e.x - s.x|
      let height := |e.y - s.y|
      some [⟨x, y⟩, ⟨x + width, y⟩, ⟨x + width, y + height⟩, ⟨x, y + height⟩, ⟨x, y⟩]
    | _, _ => none
  | .square =>
    match start, end_ with
    | some s, some e =>
      let deltaX := e.x - s.x
      let deltaY := e.y - s.y
      let side := max |deltaX| |deltaY|
      let x := s.x + (if deltaX < 0 then -side else 0)
      let y := s.y + (if deltaY < 0 then -side else 0)
      some [⟨x, y⟩, ⟨x + side, y⟩, ⟨x + side, y + side⟩, ⟨x, y + side⟩, ⟨x, y⟩]
    | _, _ => none
  | .circle =>
    match start, end_ with
    | some s, some e =>
      let centerX := (s.x + e.x) / 2
      let centerY := (s.y + e.y) / 2
      let radiusX := |e.x - s.x| / 2
      let radiusY := |e.y - s.y| / 2
      let radius := max radiusX radiusY
      some ((List.range 65).map fun (i : Nat) =>
        let angle := ((i : ℚ) / 64) * E.PI * 2
        ⟨centerX + radius * E.cos angle, centerY + radius * E.sin angle⟩)
    | _, _ => none
  | .triangle =>
    match start, end_ with
    | some s, some e =>
      let centerX := (s.x + e.x) / 2
      let centerY := (s.y + e.y) / 2
      let radiusX := |e.x - s.x| / 2
      let radiusY := |e.y - s.y| / 2
      let radius := max radiusX radiusY
      let angle := -E.PI / 2
      let points : List Point := (List.range 3).map fun (i : Nat) =>
        let currentAngle := angle + ((i : ℚ) * 2 * E.PI / 3)
        ⟨centerX + radius * E.cos currentAngle, centerY + radius * E.sin currentAngle⟩
      match points with
      | [] => some points
      | p0 :: _ => some (points ++ [p0])
    | _, _ => none
  | _ => some []

/-- The point list that `remoteDrawEnd` assigns for `stroke.tool` from `stroke.start` and
`stroke.end`, both present (lines 627-687). -/
def remoteDrawEndPoints (E : Host) (tool : Tool) (s e : Point) (old : Option (List Point)) :
    Option (List Point) :=
  match tool with
  | .line => some [s, e]
  | .rectangle =>
    let x := min s.x e.x
    let y := min s.y e.y
    let width := |e.x - s.x|
    let height := |e.y - s.y|
    some [⟨x, y⟩, ⟨x + width, y⟩, ⟨x + width, y + height⟩, ⟨x, y + height⟩, ⟨x, y⟩]
  | .square =>
    let deltaX := e.x - s.x
    let deltaY := e.y - s.y
    let side := max |deltaX| |deltaY|
    let x := s.x + (if deltaX < 0 then -side else 0)
    let y := s.y + (if deltaY < 0 then -side else 0)
    some [⟨x, y⟩, ⟨x + side, y⟩, ⟨x + side, y + side⟩, ⟨x, y + side⟩, ⟨x, y⟩]
  | .circle =>
    let centerX := (s.x + e.x) / 2
    let centerY := (s.y + e.y) / 2
    let radius := max (|e.x - s.x| / 2) (|e.y - s.y| / 2)
    some ((List.range 65).map fun (i : Nat) =>
      let angle := ((i : ℚ) / 64) * E.PI * 2
      ⟨centerX + radius * E.cos angle, centerY + radius * E.sin angle⟩)
  | .triangle =>
    let centerX := (s.x + e.x) / 2
    let centerY := (s.y + e.y) / 2
    let radius := max (|e.x - s.x| / 2) (|e.y - s.y| / 2)
    let angle := -E.PI / 2
    let points : List Point := (List.range 3).map fun (i : Nat) =>
      let currentAngle := angle + ((i : ℚ) * 2 * E.PI / 3)
      ⟨centerX + radius * E.cos currentAngle, centerY + radius * E.sin currentAngle⟩
    match points with
    | [] => some points
    | p0 :: _ => some (points ++ [p0])
  | _ => old

/-! ## Local authoring -/

/-- Method `finishShape()`.  The notifications to `window.wsManager` are not part of the
model. -/
def finishShape (E : Host) (s : CanvasManager) : Outcome :=
  match s.currentStroke with
  | none => .ok s
  | some ref =>
    match s.heap[ref]? with
    | none => .ok s
    | some cs =>
      match finishShapePoints E s.tool cs.start cs.end_ with
      | none => .threw s
      | some points =>
        redraw E { s with heap := s.heap.set ref { cs with points := some points }
                          strokes := mapSet s.strokes cs.id ref }

/-- Method `floodFill(startX, startY, fillColor)`; `strokeId` is the id that
`local-${Date.now()}-${Math.random()}` yields. -/
def floodFill (s : CanvasManager) (startX startY : ℚ) (fillColor : Color)
    (strokeId : String) : Outcome :=
  let targetColor := getPixelColor s.data (Int.floor startX) (Int.floor startY) s.width
  if colorsMatch targetColor fillColor.toPixel then .ok s
  else
    let pixelsToFill :=
      (floodRun s.data s.width s.height (Int.floor startX) (Int.floor startY)).pixelsToFill
    let stroke : Stroke :=
      { id := strokeId, points := some [⟨startX, startY⟩], color := fillColor, lineWidth := 1
        tool := .fill, userId := none, start := none, end_ := none
        fillPixels := some pixelsToFill }
    .ok { s with data := putPixels s.data s.width fillColor pixelsToFill
                 heap := s.heap ++ [stroke]
                 strokes := mapSet s.strokes strokeId s.heap.length }

/-- Method `startDrawing(e)`, on the canvas coordinates of the event; `strokeId` and
`fillStrokeId` are the ids generated in `startDrawing` and in `floodFill`. -/
def startDrawing (E : Host) (s : CanvasManager) (coords : Point)
    (strokeId fillStrokeId : String) : Outcome :=
  let s0 := { s with startPoint := some coords, isDrawing := true }
  if s0.tool = .fill then
    (floodFill s0 coords.x coords.y s0.color fillStrokeId).bind fun s1 =>
      .ok { s1 with isDrawing := false }
  else if s0.tool.isShape then
    let stroke : Stroke :=
      { id := strokeId, points := none, color := s0.color, lineWidth := s0.lineWidth
        tool := s0.tool, userId := none, start := some coords, end_ := some coords
        fillPixels := none }
    .ok { s0 with currentStroke := some s0.heap.length, heap := s0.heap ++ [stroke] }
  else
    let stroke : Stroke :=
      { id := strokeId, points := some [coords]
        color := if s0.tool = .eraser then white else s0.color
        lineWidth := s0.lineWidth, tool := s0.tool, userId := none, start := none
        end_ := none, fillPixels := none }
    let s1 := { s0 with currentStroke := some s0.heap.length, heap := s0.heap ++ [stroke]
                        strokes := mapSet s0.strokes strokeId s0.heap.length }
    if s1.tool = .sparkle then addSparkle E s1 coords.x coords.y s1.color
    else .ok (drawPoint E s1 coords stroke)

/-- Method `draw(e)`, on the canvas coordinates of the event. -/
def draw (E : Host) (s : CanvasManager) (coords : Point) : Outcome :=
  if s.isDrawing = false then .ok s
  else
    match s.currentStroke with
    | none => .ok s
    | some ref =>
      match s.heap[ref]? with
      | none => .ok s
      | some cs =>
        if s.tool.isShape then
          drawPreview E { s with heap := s.heap.set ref { cs with end_ := some coords } }
        else
          match cs.points with
          | none => .threw s
          | some pts =>
            let cs1 := { cs with points := some (pts ++ [coords]) }
            let s1 := { s with heap := s.heap.set ref cs1 }
            if s1.tool = .sparkle then addSparkle E s1 coords.x coords.y s1.color
            else
              match (pts ++ [coords]).reverse with
              | _ :: lastPoint :: _ => .ok (drawLine E s1 lastPoint coords cs1)
              | _ => .threw s1

/-- Method `stopDrawing()`. -/
def stopDrawing (E : Host) (s : CanvasManager) : Outcome :=
  if s.isDrawing = false then .ok s
  else if s.tool.isShape ∧ s.currentStroke.isSome then
    (finishShape E s).bind fun s1 =>
      clearPreview E { s1 with isDrawing := false, currentStroke := none }
  else
    .ok { s with isDrawing := false, currentStroke := none, startPoint := none }

/-- The `mouseleave` listener installed by `setupEventListeners`. -/
def mouseleave (E : Host) (s : CanvasManager) : Outcome :=
  if s.tool.isShape then (clearPreview E s).bind (stopDrawing E)
  else stopDrawing E s

/-- Method `setTool(tool)`. -/
def setTool (s : CanvasManager) (tool : Tool) : CanvasManager :=
  { s with tool := tool }

/-- Method `setColor(color)`. -/
def setColor (s : CanvasManager) (color : Color) : CanvasManager :=
  { s with color := color }

/-- Method `setLineWidth(width)`. -/
def setLineWidth (s : CanvasManager) (width : ℚ) : CanvasManager :=
  { s with lineWidth := width }

/-! ## Remote replay -/

/-- The payload of an inbound `draw-start`. -/
structure DrawStart where
  strokeId : String
  tool : Tool
  color : Color
  lineWidth : ℚ
  x : ℚ
  y : ℚ
  userId : Option String
deriving DecidableEq, Repr

/-- The payload of an inbound `draw-move`. -/
structure DrawMove where
  strokeId : String
  x : ℚ
  y : ℚ
deriving DecidableEq, Repr

/-- Method `remoteDrawStart(data)`. -/
def remoteDrawStart (E : Host) (s : CanvasManager) (data : DrawStart) : Outcome :=
  let stroke : Stroke :=
    { id := data.strokeId
      points := some (if data.tool.isShape then [] else [⟨data.x, data.y⟩])
      color := if data.tool = .eraser then white else data.color
      lineWidth := data.lineWidth
      tool := data.tool
      userId := data.userId
      start := if data.tool.isShape then some ⟨data.x, data.y⟩ else none
      end_ := none
      fillPixels := none }
  let s1 := { s with heap := s.heap ++ [stroke]
                     strokes := mapSet s.strokes data.strokeId s.heap.length }
  if data.tool = .sparkle then addSparkle E s1 data.x data.y data.color
  else if data.tool.isShape = false then .ok (drawPoint E s1 ⟨data.x, data.y⟩ stroke)
  else .ok s1

/-- Method `remoteDrawMove(data)`. -/
def remoteDrawMove (E : Host) (s : CanvasManager) (data : DrawMove) : Outcome :=
  match mapGet s.strokes data.strokeId with
  | none => .ok s
  | some ref =>
    match s.heap[ref]? with
    | none => .ok s
    | some stroke =>
      if stroke.tool = .sparkle then addSparkle E s data.x data.y stroke.color
      else if stroke.tool.isShape then
        redraw E { s with heap := s.heap.set ref { stroke with end_ := some ⟨data.x, data.y⟩ } }
      else
        match stroke.points with
        | none => .threw s
        | some pts =>
          let newPoint : Point := ⟨data.x, data.y⟩
          let stroke1 := { stroke with points := some (pts ++ [newPoint]) }
          let s1 := { s with heap := s.heap.set ref stroke1 }
          match (pts ++ [newPoint]).reverse with
          | _ :: lastPoint :: _ => .ok (drawLine E s1 lastPoint newPoint stroke1)
          | _ => .ok s1

/-- Method `remoteDrawEnd(data)`, on the `strokeId` of the payload. -/
def remoteDrawEnd (E : Host) (s : CanvasManager) (strokeId : String) : Outcome :=
  match mapGet s.strokes strokeId with
  | none => .ok s
  | some ref =>
    match s.heap[ref]? with
    | none => .ok s
    | some stroke =>
      if stroke.tool.isShape then
        match stroke.start, stroke.end_ with
        | some a, some b =>
          let stroke1 :=
            { stroke with points := remoteDrawEndPoints E stroke.tool a b stroke.points }
          redraw E { s with heap := s.heap.set ref stroke1 }
        | _, _ => redraw E s
      else .ok s

/-! ## Undo, redo and bootstrap -/

/-- Method `Map.prototype.delete`. -/
def mapDelete (m : List (String × Nat)) (k : String) : List (String × Nat) :=
  m.filter fun e => decide (e.1 ≠ k)

/-- Method `undoStroke(strokeId)`.  A key of the map always holds a stroke object, so the
test `if (stroke)` succeeds exactly when the key is present. -/
def undoStroke (E : Host) (s : CanvasManager) (strokeId : String) : Outcome :=
  match mapGet s.strokes strokeId with
  | none => .ok s
  | some _ => redraw E { s with strokes := mapDelete s.strokes strokeId }

/-- The object literal built in `redoStroke` from `strokeData`: `points` falls back to
`[]`, and no `fillPixels` property is written. -/
def redoObject (strokeData : Stroke) : Stroke :=
  { id := strokeData.id
    points := some (strokeData.points.getD [])
    color := strokeData.color
    lineWidth := strokeData.lineWidth
    tool := strokeData.tool
    userId := strokeData.userId
    start := strokeData.start
    end_ := strokeData.end_
    fillPixels := none }

/-- Method `redoStroke(strokeData)`. -/
def redoStroke (E : Host) (s : CanvasManager) (strokeData : Stroke) : Outcome :=
  let stroke := redoObject strokeData
  redrawStroke E
    { s with heap := s.heap ++ [stroke], strokes := mapSet s.strokes stroke.id s.heap.length }
    stroke

/-- The object literal built in `loadState` from one entry of the history: `points` is
copied as it is, and no `fillPixels` property is written. -/
def loadObject (strokeData : Stroke) : Stroke :=
  { id := strokeData.id
    points := strokeData.points
    color := strokeData.color
    lineWidth := strokeData.lineWidth
    tool := strokeData.tool
    userId := strokeData.userId
    start := strokeData.start
    end_ := strokeData.end_
    fillPixels := none }

/-- The `forEach` of `loadState` over the history. -/
def loadEach : List Stroke → CanvasManager → CanvasManager
  | [], s => s
  | strokeData :: rest, s =>
    loadEach rest
      { s with heap := s.heap ++ [loadObject strokeData]
               strokes := mapSet s.strokes strokeData.id s.heap.length }

/-- Method `loadState(history, currentState)`; the second argument is not used by the
source. -/
def loadState (E : Host) (s : CanvasManager) (history : List Stroke) : Outcome :=
  redraw E (loadEach history { s with strokes := [] })

/-- Method `clear()`. -/
def clear (E : Host) (s : CanvasManager) : CanvasManager :=
  CanvasManager.ctx E .clearRect { s with strokes := [] }

/-- Whether the method returned (no error escaped it). -/
def Outcome.isOk : Outcome → Bool
  | .ok _ => true
  | .threw _ => false

/-! ## Event sequences -/

/-- A run of `draw` calls (mouse moves), in order. -/
def drawEach (E : Host) : List Point → CanvasManager → Outcome
  | [], s => .ok s
  | p :: ps, s => (draw E s p).bind (drawEach E ps)

/-- A run of `remoteDrawMove` calls for one stroke id, in order. -/
def remoteDrawMoveEach (E : Host) (strokeId : String) : List Point → CanvasManager → Outcome
  | [], s => .ok s
  | p :: ps, s =>
    (remoteDrawMove E s { strokeId := strokeId, x := p.x, y := p.y }).bind
      (remoteDrawMoveEach E strokeId ps)

/-- Local authoring of one stroke with no other event in between: `startDrawing` at the
anchor, `draw` through the moves, `stopDrawing`. -/
def localStroke (E : Host) (s : CanvasManager) (anchor : Point) (moves : List Point)
    (strokeId fillStrokeId : String) : Outcome :=
  (startDrawing E s anchor strokeId fillStrokeId).bind fun s1 =>
    (drawEach E moves s1).bind (stopDrawing E)

/-- Remote replay of one stroke with no other event in between: `remoteDrawStart`,
`remoteDrawMove` through the moves, `remoteDrawEnd`. -/
def remoteStroke (E : Host) (s : CanvasManager) (start : DrawStart) (moves : List Point) :
    Outcome :=
  (remoteDrawStart E s start).bind fun s1 =>
    (remoteDrawMoveEach E start.strokeId moves s1).bind fun s2 =>
      remoteDrawEnd E s2 start.strokeId

/-- A run of `remoteDrawStart` calls, each in its own event handler: an error thrown by
one of them does not keep the next from running. -/
def remoteDrawStartEach (E : Host) : List DrawStart → CanvasManager → CanvasManager
  | [], s => s
  | d :: rest, s => remoteDrawStartEach E rest (remoteDrawStart E s d).state

/-! ## Vocabulary of the flood fill properties -/

/-- The coordinate lies inside the canvas: `0 ≤ x < width` and `0 ≤ y < height`. -/
def InCanvas (width height : Nat) (p : Int × Int) : Prop :=
  0 ≤ p.1 ∧ p.1 < (width : Int) ∧ 0 ≤ p.2 ∧ p.2 < (height : Int)

instance (width height : Nat) (p : Int × Int) : Decidable (InCanvas width height p) := by
  unfold InCanvas; infer_instance

/-- The two coordinates are 4-adjacent: they differ by one in exactly one axis. -/
def Adjacent (p q : Int × Int) : Prop :=
  (q.1 = p.1 + 1 ∧ q.2 = p.2) ∨ (q.1 = p.1 - 1 ∧ q.2 = p.2) ∨
    (q.1 = p.1 ∧ q.2 = p.2 + 1) ∨ (q.1 = p.1 ∧ q.2 = p.2 - 1)

instance (p q : Int × Int) : Decidable (Adjacent p q) := by
  unfold Adjacent; infer_instance

/-- The coordinate is inside the canvas and the colour stored there matches
`targetColor` in the sense of `colorsMatch`. -/
def Fillable (data : List Nat) (width height : Nat) (targetColor : Pixel)
    (p : Int × Int) : Prop :=
  InCanvas width height p ∧ colorsMatch (getPixelColor data p.1 p.2 width) targetColor = true

instance (data : List Nat) (width height : Nat) (targetColor : Pixel) (p : Int × Int) :
    Decidable (Fillable data width height targetColor p) := by
  unfold Fillable; infer_instance

/-- There is a path `p, q₁, …, qₙ = seed` of pairwise 4-adjacent coordinates, every one of
them (the two ends included) fillable. -/
def FillPath (data : List Nat) (width height : Nat) (targetColor : Pixel)
    (seed p : Int × Int) : Prop :=
  ∃ rest : List (Int × Int), List.Chain Adjacent p rest ∧
    (p :: rest).getLast? = some seed ∧
    ∀ q ∈ p :: rest, Fillable data width height targetColor q

/-- Reachability from the seed through fillable coordinates, built one step at a time. -/
inductive Reach (data : List Nat) (width height : Nat) (targetColor : Pixel)
    (seed : Int × Int) : Int × Int → Prop where
  | start : Fillable data width height targetColor seed →
      Reach data width height targetColor seed seed
  | step {p q : Int × Int} : Reach data width height targetColor seed p → Adjacent p q →
      Fillable data width height targetColor q → Reach data width height targetColor seed q

/-- A raster of `width * height` pixels, every one of them `(r, g, b, a)`. -/
def uniformData (width height : Nat) (r g b a : Nat) : List Nat :=
  (List.replicate (width * height) [r, g, b, a]).flatten

/-- The coordinates `(0, 0), (1, 0), …, (k - 1, 0)` of the top row, left to right. -/
def rowRecord (k : Nat) : List (Int × Int) :=
  (List.range k).map fun (i : Nat) => ((i : Int), (0 : Int))

/-- The coordinates `(sx, 0), (sx, 1), …, (sx, k - 1)` of column `sx`, top to bottom. -/
def columnRecord (sx : Int) (k : Nat) : List (Int × Int) :=
  (List.range k).map fun (j : Nat) => (sx, (j : Int))

/-- The entries left pending on the stack while the fill walks down column `sx`: the left
and right neighbour of every coordinate recorded so far, latest first. -/
def columnPending (sx : Int) : Nat → List (Int × Int)
  | 0 => []
  | k + 1 => (sx - 1, (k : Int)) :: (sx + 1, (k : Int)) :: columnPending sx k

/-! ## Vocabulary of the store properties -/

/-- The ids of the store, in iteration order. -/
def CanvasManager.ids (s : CanvasManager) : List String :=
  s.strokes.map Prod.fst

/-- The second state differs from the first at most in the raster and in the contents of
stroke objects: same canvas size, same draw machine, same map from ids to objects, same
number of objects. -/
def SameShell (s s' : CanvasManager) : Prop :=
  s'.width = s.width ∧ s'.height = s.height ∧ s'.isDrawing = s.isDrawing ∧
    s'.currentStroke = s.currentStroke ∧ s'.startPoint = s.startPoint ∧
    s'.strokes = s.strokes ∧ s'.heap.length = s.heap.length ∧ s'.tool = s.tool ∧
    s'.color = s.color ∧ s'.lineWidth = s.lineWidth

/-- No stroke object held by the store is a sparkle stroke. -/
def NoSparkle (s : CanvasManager) : Prop :=
  ∀ k ref st, (k, ref) ∈ s.strokes → s.heap[ref]? = some st → st.tool ≠ .sparkle

/-! ## Sample inputs -/

/-- A host whose rasteriser leaves the bytes alone and whose `Math` is a crude rational
stand-in; the sample computations below do not depend on either. -/
def sampleHost : Host :=
  { paint := fun _ _ _ d => d, cos := fun _ => 1, sin := fun _ => 0, PI := 3 }

/-- The colour `'#FF0000'`. -/
def red : Color := { r := 255, g := 0, b := 0 }

/-- An idle canvas manager with an empty store on a 2 × 2 canvas whose pixels are, row by
row, black, black, near-black `(9, 9, 9)` and `(200, 0, 0)`. -/
def sampleManager : CanvasManager :=
  { width := 2, height := 2
    data := [0, 0, 0, 255, 0, 0, 0, 255, 9, 9, 9, 255, 200, 0, 0, 255]
    isDrawing := false, currentStroke := none, startPoint := none
    strokes := [], heap := [], tool := .brush, color := red, lineWidth := 5 }

/-- An idle canvas manager on a 1 × 1 canvas whose pixel is `(250, 250, 250)`, opaque. -/
def paleManager : CanvasManager :=
  { width := 1, height := 1, data := [250, 250, 250, 255]
    isDrawing := false, currentStroke := none, startPoint := none
    strokes := [], heap := [], tool := .fill, color := white, lineWidth := 5 }

/-- An idle canvas manager on a 10001 × 1 canvas, every pixel opaque black. -/
def rowManager : CanvasManager :=
  { width := 10001, height := 1, data := uniformData 10001 1 0 0 0 255
    isDrawing := false, currentStroke := none, startPoint := none
    strokes := [], heap := [], tool := .fill, color := white, lineWidth := 5 }

/-- An idle canvas manager on a 3 × 5000 canvas, every pixel opaque black. -/
def tallManager : CanvasManager :=
  { width := 3, height := 5000, data := uniformData 3 5000 0 0 0 255
    isDrawing := false, currentStroke := none, startPoint := none
    strokes := [], heap := [], tool := .fill, color := white, lineWidth := 5 }

/-- A fill stroke of colour red that recorded the pixels `(0, 0)` and `(1, 1)`. -/
def sampleFill : Stroke :=
  { id := "local-0", points := some [⟨0, 0⟩], color := red, lineWidth := 1, tool := .fill
    userId := none, start := none, end_ := none, fillPixels := some [(0, 0), (1, 1)] }

/-- The sample manager with the line tool selected and one sparkle stroke, of the single
point `(5, 5)`, in the store. -/
def sparkleManager : CanvasManager :=
  { sampleManager with
    strokes := [("remote-7", 0)]
    heap := [{ id := "remote-7", points := some [⟨5, 5⟩], color := red, lineWidth := 5
               tool := .sparkle, userId := some "u2", start := none, end_ := none
               fillPixels := none }]
    tool := .line }

/-- A host whose raster is a log: `clearRect` empties it and every other drawing call
appends one byte that names the kind of call. -/
def logHost : Host :=
  { paint := fun op _ _ d =>
      match op with
      | .clearRect => []
      | .drawPoint _ _ _ => d ++ [1]
      | .drawLine _ _ _ _ _ => d ++ [2]
      | .sparkle _ _ _ _ => d ++ [3]
      | .polyline _ _ _ => d ++ [4]
      | .preview _ _ _ _ _ => d ++ [5]
    cos := fun _ => 1, sin := fun _ => 0, PI := 3 }

/-- The sample manager with the fill stroke `sampleFill` in the store. -/
def fillManager : CanvasManager :=
  { sampleManager with strokes := [("local-0", 0)], heap := [sampleFill] }

/-- The sample manager with one sparkle stroke of the single point `(5, 5)` in the store
and a local brush stroke in progress, so far of the single point `(0, 0)`. -/
def busyManager : CanvasManager :=
  { sampleManager with
    isDrawing := true
    currentStroke := some 1
    startPoint := some ⟨0, 0⟩
    strokes := [("remote-7", 0), ("local-1", 1)]
    heap := [{ id := "remote-7", points := some [⟨5, 5⟩], color := red, lineWidth := 5
               tool := .sparkle, userId := some "u2", start := none, end_ := none
               fillPixels := none },
             { id := "local-1", points := some [⟨0, 0⟩], color := red, lineWidth := 5
               tool := .brush, userId := none, start := none, end_ := none
               fillPixels := none }] }

/-! ## The flood fill loop: general facts -/

section FloodLoop

variable (data : List Nat) (width height : Nat) (target : Pixel)

theorem floodLoop_invariant (P : FillLoop → Prop)
    (hstep : ∀ st, P st → loopCond st = true → P (floodBody data width height target st)) :
    ∀ (n : Nat) (st : FillLoop), P st → P (floodLoop data width height target n st) := by
  intro n
  induction n with
  | zero => intro st h; simpa [floodLoop] using h
  | succ n ih =>
    intro st h
    unfold floodLoop
    by_cases hc : loopCond st = true
    · rw [if_pos hc]; exact ih _ (hstep st h hc)
    · rw [if_neg hc]; exact h

theorem loopCond_stack {st : FillLoop} (h : loopCond st = true) :
    ∃ x y rest, st.stack = (x, y) :: rest := by
  unfold loopCond at h
  cases hs : st.stack with
  | nil => simp [hs] at h
  | cons p rest => exact ⟨p.1, p.2, rest, rfl⟩

/-- The two ways an iteration can go: the popped coordinate is skipped, or it is recorded
and its four neighbours are pushed. -/
theorem floodBody_spec (st : FillLoop) (x y : Int) (rest : List (Int × Int))
    (h : st.stack = (x, y) :: rest) :
    (floodBody data width height target st = { st with stack := rest } ∧
        ((x, y) ∈ st.visited ∨ ¬ Fillable data width height target (x, y))) ∨
      (floodBody data width height target st =
          { stack := (x, y - 1) :: (x, y + 1) :: (x - 1, y) :: (x + 1, y) :: rest
            visited := (x, y) :: st.visited
            pixelsToFill := st.pixelsToFill ++ [(x, y)] } ∧
        (x, y) ∉ st.visited ∧ Fillable data width height target (x, y)) := by
  unfold floodBody
  rw [h]
  simp only []
  by_cases h1 : (x, y) ∈ st.visited ∨ x < 0 ∨ x ≥ (width : Int) ∨ y < 0 ∨ y ≥ (height : Int)
  · rw [if_pos h1]
    left
    refine ⟨rfl, ?_⟩
    rcases h1 with h1 | h1
    · exact Or.inl h1
    · right
      intro hf
      have := hf.1
      unfold InCanvas at this
      simp only at this
      omega
  · rw [if_neg h1]
    by_cases h2 : colorsMatch (getPixelColor data x y width) target = false
    · rw [if_pos h2]
      left
      refine ⟨rfl, Or.inr ?_⟩
      intro hf
      have := hf.2
      simp only at this
      rw [h2] at this
      exact Bool.noConfusion this
    · rw [if_neg h2]
      right
      refine ⟨rfl, fun hv => h1 (Or.inl hv), ?_, ?_⟩
      · unfold InCanvas
        simp only
        omega
      · simpa using h2

/-! ### Termination of the loop -/

theorem length_le_of_inCanvas (l : List (Int × Int)) (hnd : l.Nodup)
    (hin : ∀ p ∈ l, InCanvas width height p) : l.length ≤ width * height := by
  have hsub : l.toFinset ⊆ Finset.Ico (0 : Int) width ×ˢ Finset.Ico (0 : Int) height := by
    intro p hp
    have h := hin p (List.mem_toFinset.mp hp)
    unfold InCanvas at h
    simp only [Finset.mem_product, Finset.mem_Ico]
    exact ⟨⟨h.1, h.2.1⟩, h.2.2.1, h.2.2.2⟩
  have hcard := Finset.card_le_card hsub
  rw [List.toFinset_card_of_nodup hnd, Finset.card_product, Int.card_Ico, Int.card_Ico] at hcard
  simpa using hcard

/-- An iteration keeps the visited coordinates distinct and inside the canvas, and
either pops one entry or records one coordinate and leaves three more entries. -/
theorem floodBody_measure (st : FillLoop) (hnd : st.visited.Nodup)
    (hin : ∀ p ∈ st.visited, InCanvas width height p) (hc : loopCond st = true) :
    (floodBody data width height target st).visited.Nodup ∧
      (∀ p ∈ (floodBody data width height target st).visited, InCanvas width height p) ∧
      4 * (floodBody data width height target st).visited.length + st.stack.length =
        4 * st.visited.length + (floodBody data width height target st).stack.length + 1 := by
  obtain ⟨x, y, rest, hs⟩ := loopCond_stack hc
  rcases floodBody_spec data width height target st x y rest hs with ⟨he, _⟩ | ⟨he, hv, hf⟩
  · rw [he, hs]
    refine ⟨hnd, hin, ?_⟩
    simp only [List.length_cons]
    omega
  · rw [he, hs]
    refine ⟨List.nodup_cons.mpr ⟨hv, hnd⟩, ?_, ?_⟩
    · intro p hp
      rcases List.mem_cons.mp hp with rfl | hp
      · exact hf.1
      · exact hin p hp
    · simp only [List.length_cons]
      omega

theorem floodLoop_exits : ∀ (n : Nat) (st : FillLoop), st.visited.Nodup →
    (∀ p ∈ st.visited, InCanvas width height p) →
    st.stack.length + 4 * (width * height) ≤ n + 4 * st.visited.length →
    loopCond (floodLoop data width height target n st) = false := by
  intro n
  induction n with
  | zero =>
    intro st hnd hin hle
    have hb := length_le_of_inCanvas width height st.visited hnd hin
    have h0 : st.stack.length = 0 := by omega
    simp [floodLoop, loopCond, h0]
  | succ n ih =>
    intro st hnd hin hle
    unfold floodLoop
    by_cases hc : loopCond st = true
    · rw [if_pos hc]
      obtain ⟨h1, h2, h3⟩ := floodBody_measure data width height target st hnd hin hc
      exact ih _ h1 h2 (by omega)
    · rw [if_neg hc]
      simpa using hc

/-- The loop with fuel `n` performs some `k ≤ n` iterations, each entered with the loop
condition true. -/
theorem floodLoop_iterate : ∀ (n : Nat) (st : FillLoop), ∃ k, k ≤ n ∧
    floodLoop data width height target n st = (floodBody data width height target)^[k] st ∧
    ∀ m, m < k → loopCond ((floodBody data width height target)^[m] st) = true := by
  intro n
  induction n with
  | zero => intro st; exact ⟨0, le_refl _, rfl, fun m hm => absurd hm (Nat.not_lt_zero m)⟩
  | succ n ih =>
    intro st
    unfold floodLoop
    by_cases hc : loopCond st = true
    · rw [if_pos hc]
      obtain ⟨k, hk, he, hall⟩ := ih (floodBody data width height target st)
      refine ⟨k + 1, Nat.succ_le_succ hk, ?_, ?_⟩
      · rw [he, Function.iterate_succ_apply]
      · intro m hm
        cases m with
        | zero => simpa using hc
        | succ m =>
          rw [Function.iterate_succ_apply]
          exact hall m (by omega)
    · rw [if_neg hc]
      exact ⟨0, Nat.zero_le _, rfl, fun m hm => absurd hm (Nat.not_lt_zero m)⟩

/-- The loop of `floodFill` is left with its condition false: the fuel of `floodRun` is
enough. -/
theorem floodRun_exits (sx sy : Int) :
    loopCond (floodRun data width height sx sy) = false := by
  unfold floodRun
  apply floodLoop_exits
  · simp [floodInit]
  · simp [floodInit]
  · simp only [floodInit, List.length_cons, List.length_nil]
    rw [Nat.mul_assoc]
    omega

end FloodLoop

/-! ### Containment and completeness of the loop -/

section FloodReach

variable (data : List Nat) (width height : Nat) (target : Pixel) (seed : Int × Int)

theorem adjacent_symm {p q : Int × Int} (h : Adjacent p q) : Adjacent q p := by
  unfold Adjacent at *
  omega

theorem reach_fillable {p : Int × Int} (h : Reach data width height target seed p) :
    Fillable data width height target p := by
  cases h with
  | start hf => exact hf
  | step _ _ hf => exact hf

theorem reach_fillPath {p : Int × Int} (h : Reach data width height target seed p) :
    FillPath data width height target seed p := by
  induction h with
  | start hf =>
    refine ⟨[], List.Chain.nil, rfl, ?_⟩
    intro q hq
    rw [List.mem_singleton] at hq
    rw [hq]
    exact hf
  | @step p q _ hadj hf ih =>
    obtain ⟨rest, hch, hlast, hall⟩ := ih
    refine ⟨p :: rest, List.Chain.cons (adjacent_symm hadj) hch, ?_, ?_⟩
    · rw [List.getLast?_cons_cons]
      exact hlast
    · intro r hr
      rcases List.mem_cons.mp hr with rfl | hr
      · exact hf
      · exact hall r hr

theorem fillPath_reach {p : Int × Int} (h : FillPath data width height target seed p) :
    Reach data width height target seed p := by
  obtain ⟨rest, hch, hlast, hall⟩ := h
  induction rest generalizing p with
  | nil =>
    have hp : p = seed := by simpa using hlast
    rw [hp]
    exact Reach.start (hp ▸ hall p (List.mem_cons_self _ _))
  | cons b rest ih =>
    have hb : Reach data width height target seed b := by
      apply ih (List.chain_cons.mp hch).2
      · rw [List.getLast?_cons_cons] at hlast
        exact hlast
      · intro q hq
        exact hall q (List.mem_cons_of_mem _ hq)
    exact Reach.step hb (adjacent_symm (List.chain_cons.mp hch).1)
      (hall p (List.mem_cons_self _ _))

/-- Containment invariant: every recorded coordinate is reachable, and every pending
entry is the seed or a neighbour of a recorded coordinate. -/
theorem floodBody_sound (st : FillLoop)
    (hpix : ∀ p ∈ st.pixelsToFill, Reach data width height target seed p)
    (hstk : ∀ q ∈ st.stack, q = seed ∨ ∃ p ∈ st.pixelsToFill, Adjacent p q)
    (hc : loopCond st = true) :
    (∀ p ∈ (floodBody data width height target st).pixelsToFill,
        Reach data width height target seed p) ∧
      ∀ q ∈ (floodBody data width height target st).stack,
        q = seed ∨ ∃ p ∈ (floodBody data width height target st).pixelsToFill,
          Adjacent p q := by
  obtain ⟨x, y, rest, hs⟩ := loopCond_stack hc
  rw [hs] at hstk
  rcases floodBody_spec data width height target st x y rest hs with ⟨he, _⟩ | ⟨he, _, hf⟩
  · rw [he]
    exact ⟨hpix, fun q hq => hstk q (List.mem_cons_of_mem _ hq)⟩
  · rw [he]
    have hxy : Reach data width height target seed (x, y) := by
      rcases hstk (x, y) (List.mem_cons_self _ _) with h | ⟨p, hp, hadj⟩
      · rw [h] at hf ⊢
        exact Reach.start hf
      · exact Reach.step (hpix p hp) hadj hf
    refine ⟨?_, ?_⟩
    · intro p hp
      rcases List.mem_append.mp hp with hp | hp
      · exact hpix p hp
      · rw [List.mem_singleton] at hp
        rw [hp]
        exact hxy
    · intro q hq
      simp only [List.mem_cons] at hq
      have hmem : (x, y) ∈ st.pixelsToFill ++ [(x, y)] := by simp
      rcases hq with rfl | rfl | rfl | rfl | hq
      · exact Or.inr ⟨(x, y), hmem, by unfold Adjacent; simp⟩
      · exact Or.inr ⟨(x, y), hmem, by unfold Adjacent; simp⟩
      · exact Or.inr ⟨(x, y), hmem, by unfold Adjacent; simp⟩
      · exact Or.inr ⟨(x, y), hmem, by unfold Adjacent; simp⟩
      · rcases hstk q (List.mem_cons_of_mem _ hq) with h | ⟨p, hp, hadj⟩
        · exact Or.inl h
        · exact Or.inr ⟨p, List.mem_append_left _ hp, hadj⟩

/-- Every coordinate recorded by the loop is reachable from the seed. -/
theorem floodRun_sound (sx sy : Int) (p : Int × Int)
    (hp : p ∈ (floodRun data width height sx sy).pixelsToFill) :
    Reach data width height (getPixelColor data sx sy width) (sx, sy) p := by
  have h := floodLoop_invariant data width height (getPixelColor data sx sy width)
    (fun st => (∀ p ∈ st.pixelsToFill,
        Reach data width height (getPixelColor data sx sy width) (sx, sy) p) ∧
      ∀ q ∈ st.stack, q = (sx, sy) ∨ ∃ p ∈ st.pixelsToFill, Adjacent p q)
    (fun st hst hc => floodBody_sound data width height _ (sx, sy) st hst.1 hst.2 hc)
    (4 * width * height + 1) (floodInit sx sy)
    ⟨by simp [floodInit], by simp [floodInit]⟩
  exact h.1 p hp

/-- Completeness invariant: `visited` and `pixelsToFill` hold the same coordinates, none
twice; every fillable neighbour of a recorded coordinate is recorded or pending; so is
the seed when it is fillable. -/
theorem floodBody_complete (st : FillLoop)
    (hvis : ∀ p, p ∈ st.visited ↔ p ∈ st.pixelsToFill)
    (hnd : st.pixelsToFill.Nodup)
    (hcl : ∀ p ∈ st.pixelsToFill, ∀ q, Adjacent p q → Fillable data width height target q →
      q ∈ st.pixelsToFill ∨ q ∈ st.stack)
    (hseed : Fillable data width height target seed →
      seed ∈ st.pixelsToFill ∨ seed ∈ st.stack)
    (hc : loopCond st = true) :
    (∀ p, p ∈ (floodBody data width height target st).visited ↔
        p ∈ (floodBody data width height target st).pixelsToFill) ∧
      (floodBody data width height target st).pixelsToFill.Nodup ∧
      (∀ p ∈ (floodBody data width height target st).pixelsToFill, ∀ q, Adjacent p q →
        Fillable data width height target q →
        q ∈ (floodBody data width height target st).pixelsToFill ∨
          q ∈ (floodBody data width height target st).stack) ∧
      (Fillable data width height target seed →
        seed ∈ (floodBody data width height target st).pixelsToFill ∨
          seed ∈ (floodBody data width height target st).stack) := by
  obtain ⟨x, y, rest, hs⟩ := loopCond_stack hc
  rw [hs] at hcl hseed
  have hpop : ∀ q, Fillable data width height target q →
      ((x, y) ∈ st.visited ∨ ¬ Fillable data width height target (x, y)) →
      q ∈ st.pixelsToFill ∨ q ∈ (x, y) :: rest → q ∈ st.pixelsToFill ∨ q ∈ rest := by
    intro q hq hskip hmem
    rcases hmem with hmem | hmem
    · exact Or.inl hmem
    · rcases List.mem_cons.mp hmem with rfl | hmem
      · rcases hskip with hv | hnf
        · exact Or.inl ((hvis _).mp hv)
        · exact absurd hq hnf
      · exact Or.inr hmem
  rcases floodBody_spec data width height target st x y rest hs with ⟨he, hskip⟩ | ⟨he, hv, _⟩
  · rw [he]
    refine ⟨hvis, hnd, ?_, ?_⟩
    · intro p hp q hadj hq
      exact hpop q hq hskip (hcl p hp q hadj hq)
    · intro hf
      exact hpop seed hf hskip (hseed hf)
  · rw [he]
    have hgrow : ∀ q, q ∈ st.pixelsToFill ∨ q ∈ (x, y) :: rest →
        q ∈ st.pixelsToFill ++ [(x, y)] ∨
          q ∈ (x, y - 1) :: (x, y + 1) :: (x - 1, y) :: (x + 1, y) :: rest := by
      intro q hmem
      rcases hmem with hmem | hmem
      · exact Or.inl (List.mem_append_left _ hmem)
      · rcases List.mem_cons.mp hmem with rfl | hmem
        · exact Or.inl (by simp)
        · exact Or.inr (by simp [hmem])
    refine ⟨?_, ?_, ?_, ?_⟩
    · intro p
      simp only [List.mem_cons, List.mem_append, List.mem_singleton, hvis p]
      tauto
    · rw [List.nodup_append]
      refine ⟨hnd, List.nodup_singleton _, ?_⟩
      intro a ha hb
      rw [List.mem_singleton] at hb
      rw [hb] at ha
      exact hv ((hvis _).mpr ha)
    · intro p hp q hadj hq
      rcases List.mem_append.mp hp with hp | hp
      · exact hgrow q (hcl p hp q hadj hq)
      · rw [List.mem_singleton] at hp
        right
        rw [hp] at hadj
        unfold Adjacent at hadj
        simp only at hadj
        simp only [List.mem_cons]
        rcases hadj with h | h | h | h
        · right; right; right; left; exact Prod.ext h.1 h.2
        · right; right; left; exact Prod.ext h.1 h.2
        · right; left; exact Prod.ext h.1 h.2
        · left; exact Prod.ext h.1 h.2
    · intro hf
      exact hgrow seed (hseed hf)

/-- When the loop is left with an empty stack, it has recorded every coordinate reachable from the seed, and none twice. -/
theorem floodRun_complete (sx sy : Int)
    (hempty : (floodRun data width height sx sy).stack = []) :
    (floodRun data width height sx sy).pixelsToFill.Nodup ∧
      ∀ p, Reach data width height (getPixelColor data sx sy width) (sx, sy) p →
        p ∈ (floodRun data width height sx sy).pixelsToFill := by
  have h := floodLoop_invariant data width height (getPixelColor data sx sy width)
    (fun st => (∀ p, p ∈ st.visited ↔ p ∈ st.pixelsToFill) ∧ st.pixelsToFill.Nodup ∧
      (∀ p ∈ st.pixelsToFill, ∀ q, Adjacent p q →
        Fillable data width height (getPixelColor data sx sy width) q →
        q ∈ st.pixelsToFill ∨ q ∈ st.stack) ∧
      (Fillable data width height (getPixelColor data sx sy width) (sx, sy) →
        (sx, sy) ∈ st.pixelsToFill ∨ (sx, sy) ∈ st.stack))
    (fun st hst hc => floodBody_complete data width height _ (sx, sy) st hst.1 hst.2.1
      hst.2.2.1 hst.2.2.2 hc)
    (4 * width * height + 1) (floodInit sx sy)
    ⟨by simp [floodInit], by simp [floodInit], by simp [floodInit], by simp [floodInit]⟩
  change _ ∧ _ ∧ _ ∧ _ at h
  obtain ⟨_, hnd, hcl, hseed⟩ := h
  have hrun : floodLoop data width height (getPixelColor data sx sy width)
      (4 * width * height + 1) (floodInit sx sy) = floodRun data width height sx sy := rfl
  rw [hrun] at hnd hcl hseed
  rw [hempty] at hcl hseed
  refine ⟨hnd, ?_⟩
  intro p hp
  induction hp with
  | start hf =>
    rcases hseed hf with h | h
    · exact h
    · exact absurd h (List.not_mem_nil _)
  | step _ hadj hf ih =>
    rcases hcl _ ih _ hadj hf with h | h
    · exact h
    · exact absurd h (List.not_mem_nil _)

end FloodReach

/-! ## The stroke store -/

theorem mapGet_mapSet_self (m : List (String × Nat)) (k : String) (v : Nat) :
    mapGet (mapSet m k v) k = some v := by
  induction m with
  | nil => simp [mapSet, mapGet]
  | cons e m ih =>
    obtain ⟨k', v'⟩ := e
    unfold mapSet
    by_cases h : k' = k
    · rw [if_pos h]; simp [mapGet]
    · rw [if_neg h]; simp [mapGet, h, ih]

theorem getStroke_alloc (s : CanvasManager) (id : String) (stroke : Stroke) (data : List Nat) :
    CanvasManager.getStroke
      { s with data := data, heap := s.heap ++ [stroke]
               strokes := mapSet s.strokes id s.heap.length } id = some stroke := by
  unfold CanvasManager.getStroke
  simp [mapGet_mapSet_self]

/-- What `floodFill` does when the seed colour does not match the fill colour: it paints
the recorded pixels and stores a `fill` stroke that carries them. -/
theorem floodFill_records (s : CanvasManager) (startX startY : ℚ) (fillColor : Color)
    (strokeId : String)
    (hfill : colorsMatch (getPixelColor s.data (Int.floor startX) (Int.floor startY) s.width)
      fillColor.toPixel = false) :
    (floodFill s startX startY fillColor strokeId).state.getStroke strokeId =
      some { id := strokeId, points := some [⟨startX, startY⟩], color := fillColor
             lineWidth := 1, tool := .fill, userId := none, start := none, end_ := none
             fillPixels := some (floodRun s.data s.width s.height (Int.floor startX)
               (Int.floor startY)).pixelsToFill } := by
  unfold floodFill
  simp only [hfill]
  exact getStroke_alloc s strokeId _ _


/-! ## Flood fill on a uniform raster -/

theorem uniform_get (r g b a : Nat) : ∀ (n k : Nat), k < n →
    ((List.replicate n [r, g, b, a]).flatten)[k * 4]? = some r ∧
    ((List.replicate n [r, g, b, a]).flatten)[k * 4 + 1]? = some g ∧
    ((List.replicate n [r, g, b, a]).flatten)[k * 4 + 2]? = some b ∧
    ((List.replicate n [r, g, b, a]).flatten)[k * 4 + 3]? = some a := by
  intro n
  induction n with
  | zero => intro k hk; exact absurd hk (Nat.not_lt_zero k)
  | succ n ih =>
    intro k hk
    rw [List.replicate_succ, List.flatten_cons]
    cases k with
    | zero => simp
    | succ k =>
      have h := ih k (by omega)
      have e0 : (k + 1) * 4 = k * 4 + 3 + 1 := by omega
      have e1 : (k + 1) * 4 + 1 = k * 4 + 1 + 3 + 1 := by omega
      have e2 : (k + 1) * 4 + 2 = k * 4 + 2 + 3 + 1 := by omega
      have e3 : (k + 1) * 4 + 3 = k * 4 + 3 + 3 + 1 := by omega
      rw [e1, e2, e3, e0]
      simpa using h

theorem getPixelColor_uniform (width height r g b a : Nat) (p : Int × Int)
    (hp : InCanvas width height p) :
    getPixelColor (uniformData width height r g b a) p.1 p.2 width =
      { r := some r, g := some g, b := some b, a := some a } := by
  obtain ⟨x, y⟩ := p
  obtain ⟨hx0, hx1, hy0, hy1⟩ := hp
  simp only at hx0 hx1 hy0 hy1
  lift x to ℕ using hx0
  lift y to ℕ using hy0
  have hx : x < width := by exact_mod_cast hx1
  have hy : y < height := by exact_mod_cast hy1
  have hk : y * width + x < width * height := by
    calc y * width + x < y * width + width := by omega
      _ = (y + 1) * width := by ring
      _ ≤ height * width := Nat.mul_le_mul_right _ hy
      _ = width * height := Nat.mul_comm _ _
  obtain ⟨h0, h1, h2, h3⟩ := uniform_get r g b a (width * height) (y * width + x) hk
  have e : ((y : Int) * (width : Int) + (x : Int)) * 4 = (((y * width + x) * 4 : ℕ) : Int) := by
    push_cast; ring
  unfold getPixelColor uniformData readByte
  simp only [e]
  have c0 : (0 : Int) ≤ (((y * width + x) * 4 : ℕ) : Int) := Int.ofNat_nonneg _
  have c1 : (0 : Int) ≤ (((y * width + x) * 4 : ℕ) : Int) + 1 := by omega
  have c2 : (0 : Int) ≤ (((y * width + x) * 4 : ℕ) : Int) + 2 := by omega
  have c3 : (0 : Int) ≤ (((y * width + x) * 4 : ℕ) : Int) + 3 := by omega
  have t1 : ((((y * width + x) * 4 : ℕ) : Int) + 1).toNat = (y * width + x) * 4 + 1 := by omega
  have t2 : ((((y * width + x) * 4 : ℕ) : Int) + 2).toNat = (y * width + x) * 4 + 2 := by omega
  have t3 : ((((y * width + x) * 4 : ℕ) : Int) + 3).toNat = (y * width + x) * 4 + 3 := by omega
  rw [if_pos c0, if_pos c1, if_pos c2, if_pos c3, t1, t2, t3, Int.toNat_ofNat, h0, h1, h2, h3]



section Steps
variable (data : List Nat) (width height : Nat) (target : Pixel)

theorem floodLoop_stop (n : Nat) (st : FillLoop) (h : loopCond st = false) :
    floodLoop data width height target n st = st := by
  cases n with
  | zero => rfl
  | succ n => simp [floodLoop, h]

theorem floodLoop_skip (n : Nat) (x y : Int) (rest vis pix : List (Int × Int))
    (hlen : rest.length + 1 < 10000)
    (hskip : (x, y) ∈ vis ∨ ¬ InCanvas width height (x, y)) :
    floodLoop data width height target (n + 1)
        { stack := (x, y) :: rest, visited := vis, pixelsToFill := pix } =
      floodLoop data width height target n
        { stack := rest, visited := vis, pixelsToFill := pix } := by
  have hc : loopCond { stack := (x, y) :: rest, visited := vis, pixelsToFill := pix } = true := by
    simp [loopCond, hlen]
  rw [floodLoop, if_pos hc]
  rcases floodBody_spec data width height target
      { stack := (x, y) :: rest, visited := vis, pixelsToFill := pix } x y rest rfl with
    ⟨he, _⟩ | ⟨_, hv, hf⟩
  · rw [he]
  · rcases hskip with h | h
    · exact absurd h hv
    · exact absurd hf.1 h

theorem floodLoop_visit (n : Nat) (x y : Int) (rest vis pix : List (Int × Int))
    (hlen : rest.length + 1 < 10000) (hv : (x, y) ∉ vis)
    (hf : Fillable data width height target (x, y)) :
    floodLoop data width height target (n + 1)
        { stack := (x, y) :: rest, visited := vis, pixelsToFill := pix } =
      floodLoop data width height target n
        { stack := (x, y - 1) :: (x, y + 1) :: (x - 1, y) :: (x + 1, y) :: rest
          visited := (x, y) :: vis, pixelsToFill := pix ++ [(x, y)] } := by
  have hc : loopCond { stack := (x, y) :: rest, visited := vis, pixelsToFill := pix } = true := by
    simp [loopCond, hlen]
  rw [floodLoop, if_pos hc]
  rcases floodBody_spec data width height target
      { stack := (x, y) :: rest, visited := vis, pixelsToFill := pix } x y rest rfl with
    ⟨_, hs⟩ | ⟨he, _, _⟩
  · rcases hs with h | h
    · exact absurd h hv
    · exact absurd hf h
  · rw [he]

end Steps

theorem rowRecord_succ (k : Nat) : rowRecord (k + 1) = rowRecord k ++ [((k : Int), 0)] := by
  simp [rowRecord, List.range_succ]

theorem not_mem_rowRecord (k : Nat) : (((k : Int), (0 : Int))) ∉ (rowRecord k).reverse := by
  intro hmem
  rw [List.mem_reverse] at hmem
  unfold rowRecord at hmem
  obtain ⟨i, hi, h⟩ := List.mem_map.mp hmem
  rw [List.mem_range] at hi
  have h1 : (i : Int) = (k : Int) := congrArg Prod.fst h
  omega

theorem floodLoop_row (data : List Nat) (width : Nat) (target : Pixel)
    (hfill : ∀ p, InCanvas width 1 p → Fillable data width 1 target p) :
    ∀ (j k : Nat), k + j = width →
      floodLoop data width 1 target (4 * j + 1)
          { stack := [((k : Int), 0)], visited := (rowRecord k).reverse
            pixelsToFill := rowRecord k } =
        { stack := [], visited := (rowRecord width).reverse
          pixelsToFill := rowRecord width } := by
  intro j
  induction j with
  | zero =>
    intro k hk
    have hkw : k = width := by omega
    subst hkw
    rw [show 4 * 0 + 1 = 0 + 1 from rfl, floodLoop_skip _ _ _ _ _ _ _ _ _ _ (by simp)]
    · rfl
    · right
      unfold InCanvas
      simp
  | succ j ih =>
    intro k hk
    have hin : InCanvas width 1 ((k : Int), 0) := by
      unfold InCanvas
      simp only
      omega
    rw [show 4 * (j + 1) + 1 = 4 * j + 1 + 1 + 1 + 1 + 1 from by omega,
      floodLoop_visit _ _ _ _ _ _ _ _ _ _ (by simp) (not_mem_rowRecord k) (hfill _ hin),
      floodLoop_skip _ _ _ _ _ _ _ _ _ _ (by simp) (Or.inr (by unfold InCanvas; simp)),
      floodLoop_skip _ _ _ _ _ _ _ _ _ _ (by simp) (Or.inr (by unfold InCanvas; simp)),
      floodLoop_skip _ _ _ _ _ _ _ _ _ _ (by simp)]
    · have h := ih (k + 1) (by omega)
      rw [rowRecord_succ, List.reverse_append] at h
      simpa using h
    · cases k with
      | zero => right; unfold InCanvas; simp
      | succ k =>
        left
        rw [rowRecord_succ]
        simp


theorem columnRecord_succ (sx : Int) (k : Nat) :
    columnRecord sx (k + 1) = columnRecord sx k ++ [(sx, (k : Int))] := by
  simp [columnRecord, List.range_succ]

theorem columnRecord_length (sx : Int) (k : Nat) : (columnRecord sx k).length = k := by
  simp [columnRecord]

theorem not_mem_columnRecord (sx : Int) (k : Nat) :
    (sx, (k : Int)) ∉ (columnRecord sx k).reverse := by
  intro hmem
  rw [List.mem_reverse] at hmem
  unfold columnRecord at hmem
  obtain ⟨i, hi, h⟩ := List.mem_map.mp hmem
  rw [List.mem_range] at hi
  have h1 : (i : Int) = (k : Int) := congrArg Prod.snd h
  omega

theorem columnPending_length (sx : Int) (k : Nat) : (columnPending sx k).length = 2 * k := by
  induction k with
  | zero => rfl
  | succ k ih => simp only [columnPending, List.length_cons, ih]; omega

theorem mem_columnRecord (sx : Int) (i k : Nat) (h : i < k) :
    (sx, (i : Int)) ∈ columnRecord sx k :=
  List.mem_map.mpr ⟨i, List.mem_range.mpr h, rfl⟩

theorem floodLoop_column (data : List Nat) (width height : Nat) (target : Pixel) (sx : Int)
    (K : Nat) (hK : 2 * K + 4 = 10000)
    (hsx : 0 ≤ sx ∧ sx < (width : Int)) (hH : K < height)
    (hfill : ∀ p, InCanvas width height p → Fillable data width height target p) :
    ∀ (j k : Nat), k + j = K → ∀ n, 2 * j + 1 ≤ n →
      floodLoop data width height target n
          { stack := (sx, (k : Int)) :: columnPending sx k
            visited := (columnRecord sx k).reverse
            pixelsToFill := columnRecord sx k } =
        { stack := (sx, (K : Int) - 1) :: (sx, (K : Int) + 1) :: (sx - 1, (K : Int)) ::
            (sx + 1, (K : Int)) :: columnPending sx K
          visited := (columnRecord sx (K + 1)).reverse
          pixelsToFill := columnRecord sx (K + 1) } := by
  intro j
  induction j with
  | zero =>
    intro k hk n hn
    have hk' : k = K := by omega
    subst hk'
    obtain ⟨n, rfl⟩ : ∃ m, n = m + 1 := ⟨n - 1, by omega⟩
    have hin : InCanvas width height (sx, (k : Int)) := by
      unfold InCanvas
      simp only
      omega
    rw [floodLoop_visit _ _ _ _ _ _ _ _ _ _ (by rw [columnPending_length]; omega)
        (not_mem_columnRecord sx k) (hfill _ hin),
      floodLoop_stop _ _ _ _ _ _ (by
        simp only [loopCond, List.length_cons, columnPending_length]
        simp only [Bool.and_eq_false_iff, decide_eq_false_iff_not]
        right
        omega),
      columnRecord_succ sx k, List.reverse_append]
    rfl
  | succ j ih =>
    intro k hk n hn
    obtain ⟨n, rfl⟩ : ∃ m, n = m + 1 + 1 := ⟨n - 2, by omega⟩
    have hin : InCanvas width height (sx, (k : Int)) := by
      unfold InCanvas
      simp only
      omega
    rw [floodLoop_visit _ _ _ _ _ _ _ _ _ _ (by rw [columnPending_length]; omega)
        (not_mem_columnRecord sx k) (hfill _ hin),
      floodLoop_skip _ _ _ _ _ _ _ _ _ _ (by
        simp only [List.length_cons, columnPending_length]; omega)]
    · have h := ih (k + 1) (by omega) n (by omega)
      rw [columnRecord_succ sx k, List.reverse_append] at h
      have hc : ((k + 1 : Nat) : Int) = (k : Int) + 1 := by push_cast; rfl
      rw [hc] at h
      exact h
    · cases k with
      | zero => right; unfold InCanvas; simp
      | succ k =>
        left
        have hc : ((k + 1 : Nat) : Int) - 1 = (k : Int) := by push_cast; ring
        rw [hc]
        exact List.mem_cons_of_mem _
          (List.mem_reverse.mpr (mem_columnRecord sx k (k + 1) (Nat.lt_succ_self k)))

/-! ## Flood fill: the claims -/

/-- C1 (flood-fill containment).  When the seed colour does not match the fill colour,
`floodFill` stores a fill stroke under the new id, and every coordinate of its `fillPixels`
(a) lies inside the canvas, (b) had an original colour that `colorsMatch` the original
colour read at the floored seed, and (c) is joined to the floored seed by a path of
4-adjacent coordinates that all satisfy (a) and (b).  Hence, if the seed lies in a region
`inside` all of whose 4-neighbours are in the region or on a `ring` of coordinates that do
not match the seed colour, every recorded coordinate is in the region and off the ring.
(When the seed colour matches the fill colour nothing is recorded.) -/
theorem floodFill_containment (s : CanvasManager) (startX startY : ℚ) (fillColor : Color)
    (strokeId : String)
    (hfill : colorsMatch (getPixelColor s.data (Int.floor startX) (Int.floor startY) s.width)
      fillColor.toPixel = false) :
    ∃ stroke fillPixels,
      (floodFill s startX startY fillColor strokeId).state.getStroke strokeId = some stroke ∧
      stroke.fillPixels = some fillPixels ∧
      (∀ p ∈ fillPixels,
        InCanvas s.width s.height p ∧
        colorsMatch (getPixelColor s.data p.1 p.2 s.width)
          (getPixelColor s.data (Int.floor startX) (Int.floor startY) s.width) = true ∧
        FillPath s.data s.width s.height
          (getPixelColor s.data (Int.floor startX) (Int.floor startY) s.width)
          (Int.floor startX, Int.floor startY) p) ∧
      ∀ inside ring : Set (Int × Int), (Int.floor startX, Int.floor startY) ∈ inside →
        (∀ q ∈ ring, colorsMatch (getPixelColor s.data q.1 q.2 s.width)
          (getPixelColor s.data (Int.floor startX) (Int.floor startY) s.width) = false) →
        (∀ p ∈ inside, ∀ q, Adjacent p q → q ∈ inside ∨ q ∈ ring) →
        ∀ p ∈ fillPixels, p ∈ inside ∧ p ∉ ring := by
  refine ⟨_, _, floodFill_records s startX startY fillColor strokeId hfill, rfl, ?_, ?_⟩
  · intro p hp
    have hr := floodRun_sound s.data s.width s.height _ _ p hp
    have hf := reach_fillable _ _ _ _ _ hr
    exact ⟨hf.1, hf.2, reach_fillPath _ _ _ _ _ hr⟩
  · intro inside ring hseed hring hclosed p hp
    have hr := floodRun_sound s.data s.width s.height _ _ p hp
    have hoff : ∀ q, Fillable s.data s.width s.height
        (getPixelColor s.data (Int.floor startX) (Int.floor startY) s.width) q → q ∉ ring := by
      intro q hq hmem
      have h1 := hring q hmem
      rw [hq.2] at h1
      exact Bool.noConfusion h1
    have hin : ∀ q, Reach s.data s.width s.height
        (getPixelColor s.data (Int.floor startX) (Int.floor startY) s.width)
        (Int.floor startX, Int.floor startY) q → q ∈ inside := by
      intro q hq
      induction hq with
      | start _ => exact hseed
      | step _ hadj hf ih =>
        rcases hclosed _ ih _ hadj with h | h
        · exact h
        · exact absurd h (hoff _ hf)
    exact ⟨hin p hr, hoff p (reach_fillable _ _ _ _ _ hr)⟩

/-- C2 (flood-fill completeness below the cap).  When the seed colour does not match the
fill colour and the loop of `floodFill` ends with the pending stack empty, the stored
`fillPixels` lists every coordinate joined to the floored seed by a path of 4-adjacent
in-canvas coordinates matching the seed colour, lists nothing else, and lists no
coordinate twice. -/
theorem floodFill_complete (s : CanvasManager) (startX startY : ℚ) (fillColor : Color)
    (strokeId : String)
    (hfill : colorsMatch (getPixelColor s.data (Int.floor startX) (Int.floor startY) s.width)
      fillColor.toPixel = false)
    (hempty : (floodRun s.data s.width s.height (Int.floor startX)
      (Int.floor startY)).stack = []) :
    ∃ stroke fillPixels,
      (floodFill s startX startY fillColor strokeId).state.getStroke strokeId = some stroke ∧
      stroke.fillPixels = some fillPixels ∧
      fillPixels.Nodup ∧
      ∀ p, p ∈ fillPixels ↔
        FillPath s.data s.width s.height
          (getPixelColor s.data (Int.floor startX) (Int.floor startY) s.width)
          (Int.floor startX, Int.floor startY) p := by
  obtain ⟨hnd, hall⟩ := floodRun_complete s.data s.width s.height _ _ hempty
  refine ⟨_, _, floodFill_records s startX startY fillColor strokeId hfill, rfl, hnd, ?_⟩
  intro p
  constructor
  · intro hp
    exact reach_fillPath _ _ _ _ _ (floodRun_sound s.data s.width s.height _ _ p hp)
  · intro hp
    exact hall p (fillPath_reach _ _ _ _ _ hp)

/-- C3 (flood-fill early exit).  When the red, green and blue channels read at the floored
seed each differ from the fill colour's by less than 10 (whatever the alpha), `floodFill`
returns with the canvas manager unchanged: no pixel of the raster changes and no stroke is
added. -/
theorem floodFill_early_exit (s : CanvasManager) (startX startY : ℚ) (fillColor : Color)
    (strokeId : String) (r g b : Nat) (a : Option Nat)
    (hseed : getPixelColor s.data (Int.floor startX) (Int.floor startY) s.width =
      { r := some r, g := some g, b := some b, a := a })
    (hr : |(r : Int) - (fillColor.r.val : Int)| < 10)
    (hg : |(g : Int) - (fillColor.g.val : Int)| < 10)
    (hb : |(b : Int) - (fillColor.b.val : Int)| < 10) :
    floodFill s startX startY fillColor strokeId = .ok s := by
  have hn : ∀ u v : Nat, |(u : Int) - (v : Int)| < 10 → channelNear (some u) (some v) = true := by
    intro u v h
    rw [abs_lt] at h
    simp only [channelNear, decide_eq_true_eq]
    omega
  unfold floodFill
  simp only [hseed, colorsMatch, Color.toPixel, hn r _ hr, hn g _ hg, hn b _ hb, Bool.and_self,
    if_true]

/-- C5 (flood-fill termination).  For every raster, canvas size and seed, the `while` loop
of `floodFill` performs some number `n ≤ 4 * width * height + 1` of iterations and is then
left with its condition false; the state it is left in is the one `floodFill` goes on
with, and `floodFill` returns. -/
theorem floodFill_terminates (s : CanvasManager) (startX startY : ℚ) (fillColor : Color)
    (strokeId : String) :
    (∃ n, n ≤ 4 * s.width * s.height + 1 ∧
      (∀ m, m < n → loopCond ((floodBody s.data s.width s.height
        (getPixelColor s.data (Int.floor startX) (Int.floor startY) s.width))^[m]
        (floodInit (Int.floor startX) (Int.floor startY))) = true) ∧
      loopCond ((floodBody s.data s.width s.height
        (getPixelColor s.data (Int.floor startX) (Int.floor startY) s.width))^[n]
        (floodInit (Int.floor startX) (Int.floor startY))) = false ∧
      floodRun s.data s.width s.height (Int.floor startX) (Int.floor startY) =
        (floodBody s.data s.width s.height
          (getPixelColor s.data (Int.floor startX) (Int.floor startY) s.width))^[n]
          (floodInit (Int.floor startX) (Int.floor startY))) ∧
    ∃ s', floodFill s startX startY fillColor strokeId = .ok s' := by
  constructor
  · obtain ⟨k, hk, he, hall⟩ := floodLoop_iterate s.data s.width s.height
      (getPixelColor s.data (Int.floor startX) (Int.floor startY) s.width)
      (4 * s.width * s.height + 1) (floodInit (Int.floor startX) (Int.floor startY))
    have hex := floodRun_exits s.data s.width s.height (Int.floor startX) (Int.floor startY)
    refine ⟨k, hk, hall, ?_, he⟩
    rw [← he]
    exact hex
  · unfold floodFill
    simp only []
    split
    · exact ⟨_, rfl⟩
    · exact ⟨_, rfl⟩

theorem floodFill_containment_witness :
    colorsMatch (getPixelColor sampleManager.data (Int.floor (0 : ℚ)) (Int.floor (0 : ℚ))
      sampleManager.width) red.toPixel = false ∧
    ∃ stroke fillPixels,
      (floodFill sampleManager 0 0 red "fill-1").state.getStroke "fill-1" = some stroke ∧
      stroke.fillPixels = some fillPixels ∧
      ∀ p ∈ fillPixels, InCanvas 2 2 p ∧
        FillPath sampleManager.data 2 2
          (getPixelColor sampleManager.data (Int.floor (0 : ℚ)) (Int.floor (0 : ℚ)) 2)
          (Int.floor (0 : ℚ), Int.floor (0 : ℚ)) p := by
  obtain ⟨stroke, fillPixels, h1, h2, h3, _⟩ :=
    floodFill_containment sampleManager 0 0 red "fill-1" (by decide)
  exact ⟨by decide, stroke, fillPixels, h1, h2, fun p hp => ⟨(h3 p hp).1, (h3 p hp).2.2⟩⟩

theorem floodFill_complete_witness :
    (floodRun sampleManager.data sampleManager.width sampleManager.height
      (Int.floor (0 : ℚ)) (Int.floor (0 : ℚ))).stack = [] ∧
    ∃ stroke fillPixels,
      (floodFill sampleManager 0 0 red "fill-1").state.getStroke "fill-1" = some stroke ∧
      stroke.fillPixels = some fillPixels ∧ fillPixels.Nodup ∧
      ∀ p, p ∈ fillPixels ↔
        FillPath sampleManager.data 2 2
          (getPixelColor sampleManager.data (Int.floor (0 : ℚ)) (Int.floor (0 : ℚ)) 2)
          (Int.floor (0 : ℚ), Int.floor (0 : ℚ)) p :=
  ⟨by decide, floodFill_complete sampleManager 0 0 red "fill-1" (by decide) (by decide)⟩

theorem floodFill_early_exit_witness :
    getPixelColor paleManager.data (Int.floor (0 : ℚ)) (Int.floor (0 : ℚ)) paleManager.width =
      { r := some 250, g := some 250, b := some 250, a := some 255 } ∧
    floodFill paleManager 0 0 white "fill-1" = .ok paleManager :=
  ⟨by decide, floodFill_early_exit paleManager 0 0 white "fill-1" 250 250 250 (some 255)
    (by decide) (by decide) (by decide) (by decide)⟩

theorem colorsMatch_self (r g b a : Nat) :
    colorsMatch { r := some r, g := some g, b := some b, a := some a }
      { r := some r, g := some g, b := some b, a := some a } = true := by
  simp [colorsMatch, channelNear]

theorem fillable_uniform (width height r g b a : Nat) (p : Int × Int)
    (hp : InCanvas width height p) :
    Fillable (uniformData width height r g b a) width height
      { r := some r, g := some g, b := some b, a := some a } p := by
  refine ⟨hp, ?_⟩
  rw [getPixelColor_uniform width height r g b a p hp]
  exact colorsMatch_self r g b a

/-- On a one-row raster whose pixels all match the target, the loop started at `(0, 0)`
records the whole row and ends with an empty stack. -/
theorem floodRun_row (width r g b a : Nat) (hw : 0 < width) :
    floodRun (uniformData width 1 r g b a) width 1 0 0 =
      { stack := [], visited := (rowRecord width).reverse, pixelsToFill := rowRecord width } := by
  have hseed : InCanvas width 1 ((0 : Int), (0 : Int)) := by
    unfold InCanvas
    simp only
    omega
  unfold floodRun
  rw [getPixelColor_uniform width 1 r g b a (0, 0) hseed]
  have h := floodLoop_row (uniformData width 1 r g b a) width
    { r := some r, g := some g, b := some b, a := some a }
    (fun p hp => fillable_uniform width 1 r g b a p hp) width 0 (by omega)
  rw [show 4 * width * 1 + 1 = 4 * width + 1 from by omega]
  exact h

/-- On a raster whose pixels all match the target and that is at least 4999 rows high, the
loop started in the top row walks down the column of the seed and is left, after 4999
recorded coordinates, with 10000 pending entries. -/
theorem floodRun_column (width height r g b a : Nat) (sx : Int)
    (hsx : 0 ≤ sx ∧ sx < (width : Int)) (hH : 4999 ≤ height) :
    floodRun (uniformData width height r g b a) width height sx 0 =
      { stack := (sx, 4998 - 1) :: (sx, 4998 + 1) :: (sx - 1, 4998) :: (sx + 1, 4998) ::
          columnPending sx 4998
        visited := (columnRecord sx 4999).reverse
        pixelsToFill := columnRecord sx 4999 } := by
  have hseed : InCanvas width height (sx, (0 : Int)) := by
    unfold InCanvas
    simp only
    omega
  have hfuel : 2 * 4998 + 1 ≤ 4 * width * height + 1 := by
    have h1 : 1 ≤ width := by omega
    have h2 : 1 * 4999 ≤ width * height := Nat.mul_le_mul h1 hH
    rw [Nat.mul_assoc]
    omega
  unfold floodRun
  rw [getPixelColor_uniform width height r g b a (sx, 0) hseed]
  exact floodLoop_column (uniformData width height r g b a) width height
    { r := some r, g := some g, b := some b, a := some a } sx 4998 (by norm_num) hsx (by omega)
    (fun p hp => fillable_uniform width height r g b a p hp) 4998 0 (by norm_num) _ hfuel

theorem length_eq_of_all_inCanvas (width height : Nat) (l : List (Int × Int)) (hnd : l.Nodup)
    (hin : ∀ p ∈ l, InCanvas width height p) (hall : ∀ p, InCanvas width height p → p ∈ l) :
    l.length = width * height := by
  have heq : l.toFinset = Finset.Ico (0 : Int) width ×ˢ Finset.Ico (0 : Int) height := by
    ext p
    simp only [List.mem_toFinset, Finset.mem_product, Finset.mem_Ico]
    constructor
    · intro hp
      have h := hin p hp
      exact ⟨⟨h.1, h.2.1⟩, h.2.2.1, h.2.2.2⟩
    · intro hp
      exact hall p ⟨hp.1.1, hp.1.2, hp.2.1, hp.2.2⟩
  have hcard := congrArg Finset.card heq
  rw [List.toFinset_card_of_nodup hnd, Finset.card_product, Int.card_Ico, Int.card_Ico] at hcard
  simpa using hcard

/-- When every canvas coordinate is fillable, every canvas coordinate is reachable from a
seed inside the canvas: along the row of the seed, then along a column. -/
theorem reach_of_all_fillable (data : List Nat) (width height : Nat) (target : Pixel)
    (seed : Int × Int) (hseed : InCanvas width height seed)
    (hfill : ∀ p, InCanvas width height p → Fillable data width height target p) :
    ∀ p, InCanvas width height p → Reach data width height target seed p := by
  have hrow : ∀ (d : Nat) (x : Int), InCanvas width height (x, seed.2) →
      (x - seed.1).natAbs = d → Reach data width height target seed (x, seed.2) := by
    intro d
    induction d with
    | zero =>
      intro x hx hd
      have hxs : x = seed.1 := by omega
      rw [hxs]
      exact Reach.start (hfill seed hseed)
    | succ d ih =>
      intro x hx hd
      unfold InCanvas at hx hseed
      simp only at hx
      by_cases hlt : seed.1 < x
      · have hprev := ih (x - 1) (by unfold InCanvas; simp only; omega) (by omega)
        exact Reach.step hprev (by unfold Adjacent; simp) (hfill _ (by unfold InCanvas; simp only; omega))
      · have hprev := ih (x + 1) (by unfold InCanvas; simp only; omega) (by omega)
        exact Reach.step hprev (by unfold Adjacent; simp) (hfill _ (by unfold InCanvas; simp only; omega))
  have hcol : ∀ (x : Int) (d : Nat) (y : Int), InCanvas width height (x, y) →
      (y - seed.2).natAbs = d → Reach data width height target seed (x, y) := by
    intro x d
    induction d with
    | zero =>
      intro y hy hd
      have hys : y = seed.2 := by omega
      rw [hys]
      apply hrow _ x _ rfl
      unfold InCanvas at hy hseed ⊢
      simp only at hy ⊢
      omega
    | succ d ih =>
      intro y hy hd
      unfold InCanvas at hy hseed
      simp only at hy
      by_cases hlt : seed.2 < y
      · have hprev := ih (y - 1) (by unfold InCanvas; simp only; omega) (by omega)
        exact Reach.step hprev (by unfold Adjacent; simp) (hfill _ (by unfold InCanvas; simp only; omega))
      · have hprev := ih (y + 1) (by unfold InCanvas; simp only; omega) (by omega)
        exact Reach.step hprev (by unfold Adjacent; simp) (hfill _ (by unfold InCanvas; simp only; omega))
  intro p hp
  exact hcol p.1 _ p.2 hp rfl

theorem floodRun_exit_cases (data : List Nat) (width height : Nat) (sx sy : Int) :
    (floodRun data width height sx sy).stack = [] ∨
      10000 ≤ (floodRun data width height sx sy).stack.length := by
  have h := floodRun_exits data width height sx sy
  simp only [loopCond, Bool.and_eq_false_iff, decide_eq_false_iff_not] at h
  rcases h with h | h
  · left
    exact List.length_eq_zero.mp (by omega)
  · right
    omega

/-- On a uniform canvas at least 4999 rows high, a fill seeded in the top row stops with
10000 pending entries after recording the 4999 coordinates below the seed. -/
theorem floodFill_top_row (s : CanvasManager) (startX startY : ℚ) (fillColor : Color)
    (strokeId : String) (r g b a : Nat)
    (hdata : s.data = uniformData s.width s.height r g b a)
    (hx : 0 ≤ Int.floor startX ∧ Int.floor startX < (s.width : Int))
    (hy : Int.floor startY = 0)
    (hheight : 4999 ≤ s.height) (hsize : 4999 < s.width * s.height)
    (hfill : colorsMatch { r := some r, g := some g, b := some b, a := some a }
      fillColor.toPixel = false) :
    (floodRun s.data s.width s.height (Int.floor startX) (Int.floor startY)).stack.length =
        10000 ∧
    ∃ stroke fillPixels,
      (floodFill s startX startY fillColor strokeId).state.getStroke strokeId = some stroke ∧
      stroke.fillPixels = some fillPixels ∧
      fillPixels = columnRecord (Int.floor startX) 4999 ∧
      fillPixels.length = 4999 ∧
      fillPixels.length < s.width * s.height := by
  have hseed : InCanvas s.width s.height (Int.floor startX, (0 : Int)) := by
    unfold InCanvas
    simp only
    omega
  have hrun := floodRun_column s.width s.height r g b a (Int.floor startX) hx hheight
  have hrec := floodFill_records s startX startY fillColor strokeId (by
    rw [hdata, hy, getPixelColor_uniform s.width s.height r g b a (Int.floor startX, 0) hseed]
    exact hfill)
  have hpx : (floodRun s.data s.width s.height (Int.floor startX)
      (Int.floor startY)).pixelsToFill = columnRecord (Int.floor startX) 4999 := by
    rw [hdata, hy, hrun]
  have hstack : (floodRun s.data s.width s.height (Int.floor startX)
      (Int.floor startY)).stack.length = 10000 := by
    rw [hdata, hy, hrun]
    simp only [List.length_cons, columnPending_length]
  refine ⟨hstack, _, _, hrec, rfl, hpx, ?_, ?_⟩
  · rw [hpx]
    exact columnRecord_length _ _
  · rw [hpx, columnRecord_length]
    exact hsize

/-- C4, as amended (flood-fill cap).  The cap bounds the pending stack, not the number of
filled pixels.  For every canvas all of one uniform colour not matching the fill colour and
every seed inside it, `floodFill` stores a fill stroke and either its loop ended with the
stack empty, and then `fillPixels` has `width * height` entries (no pixel is left
unfilled), or it ended with at least 10000 pending entries.  When moreover the seed is in
the top row and the canvas is at least 4999 rows high and has more than 4999 pixels, the
loop ends with exactly 10000 pending entries after recording the 4999 coordinates below
the seed, so at least one canvas pixel is left unfilled. -/
theorem floodFill_cap (s : CanvasManager) (startX startY : ℚ) (fillColor : Color)
    (strokeId : String) (r g b a : Nat)
    (hdata : s.data = uniformData s.width s.height r g b a)
    (hseed : InCanvas s.width s.height (Int.floor startX, Int.floor startY))
    (hfill : colorsMatch { r := some r, g := some g, b := some b, a := some a }
      fillColor.toPixel = false) :
    ∃ stroke fillPixels,
      (floodFill s startX startY fillColor strokeId).state.getStroke strokeId = some stroke ∧
      stroke.fillPixels = some fillPixels ∧
      (((floodRun s.data s.width s.height (Int.floor startX) (Int.floor startY)).stack = [] ∧
          fillPixels.length = s.width * s.height) ∨
        10000 ≤ (floodRun s.data s.width s.height (Int.floor startX)
          (Int.floor startY)).stack.length) ∧
      (Int.floor startY = 0 → 4999 ≤ s.height → 4999 < s.width * s.height →
        (floodRun s.data s.width s.height (Int.floor startX) (Int.floor startY)).stack.length =
          10000 ∧
        fillPixels = columnRecord (Int.floor startX) 4999 ∧
        fillPixels.length < s.width * s.height) := by
  have htarget : getPixelColor s.data (Int.floor startX) (Int.floor startY) s.width =
      { r := some r, g := some g, b := some b, a := some a } := by
    rw [hdata]
    exact getPixelColor_uniform s.width s.height r g b a _ hseed
  have hrec := floodFill_records s startX startY fillColor strokeId (by rw [htarget]; exact hfill)
  refine ⟨_, _, hrec, rfl, ?_, ?_⟩
  · rcases floodRun_exit_cases s.data s.width s.height (Int.floor startX) (Int.floor startY)
      with hempty | hcap
    · left
      refine ⟨hempty, ?_⟩
      obtain ⟨hnd, hall⟩ := floodRun_complete s.data s.width s.height _ _ hempty
      apply length_eq_of_all_inCanvas s.width s.height _ hnd
      · intro p hp
        exact (reach_fillable _ _ _ _ _ (floodRun_sound s.data s.width s.height _ _ p hp)).1
      · intro p hp
        apply hall p
        apply reach_of_all_fillable s.data s.width s.height _ _ hseed _ p hp
        intro q hq
        rw [htarget, hdata]
        exact fillable_uniform s.width s.height r g b a q hq
    · exact Or.inr hcap
  · intro hy hheight hsize
    have hx : 0 ≤ Int.floor startX ∧ Int.floor startX < (s.width : Int) := ⟨hseed.1, hseed.2.1⟩
    obtain ⟨h1, stroke, fillPixels, h2, h3, h4, _, h6⟩ :=
      floodFill_top_row s startX startY fillColor strokeId r g b a hdata hx hy hheight hsize
        hfill
    rw [hrec] at h2
    have hst := Option.some.inj h2
    rw [← hst] at h3
    have hpx := Option.some.inj h3
    rw [hpx]
    exact ⟨h1, h4, h6⟩

theorem floodFill_cap_witness :
    (tallManager.data = uniformData tallManager.width tallManager.height 0 0 0 255 ∧
      InCanvas tallManager.width tallManager.height (Int.floor (1 : ℚ), Int.floor (0 : ℚ)) ∧
      10000 < tallManager.width * tallManager.height) ∧
    ∃ stroke fillPixels,
      (floodFill tallManager 1 0 white "fill-1").state.getStroke "fill-1" = some stroke ∧
      stroke.fillPixels = some fillPixels ∧
      fillPixels = columnRecord (Int.floor (1 : ℚ)) 4999 ∧
      fillPixels.length < tallManager.width * tallManager.height := by
  obtain ⟨stroke, fillPixels, h1, h2, _, h4⟩ :=
    floodFill_cap tallManager 1 0 white "fill-1" 0 0 0 255 rfl (by decide) (by decide)
  obtain ⟨_, h5, h6⟩ := h4 (by decide) (by simp [tallManager]) (by simp [tallManager])
  exact ⟨⟨rfl, by decide, by simp [tallManager]⟩, stroke, fillPixels, h1, h2, h5, h6⟩

/-- C4 fails as stated: the 10001 × 1 canvas `rowManager` has more than 10,000 pixels, all
opaque black, the seed `(0, 0)` is inside it and black does not match the fill colour
white, yet `floodFill` records as many coordinates as the canvas has pixels. -/
theorem floodFill_cap_counterexample :
    rowManager.data = uniformData rowManager.width rowManager.height 0 0 0 255 ∧
    10000 < rowManager.width * rowManager.height ∧
    InCanvas rowManager.width rowManager.height (Int.floor (0 : ℚ), Int.floor (0 : ℚ)) ∧
    colorsMatch { r := some 0, g := some 0, b := some 0, a := some 255 } white.toPixel = false ∧
    ∃ stroke fillPixels,
      (floodFill rowManager 0 0 white "fill-1").state.getStroke "fill-1" = some stroke ∧
      stroke.fillPixels = some fillPixels ∧
      ¬ fillPixels.length < rowManager.width * rowManager.height := by
  have hseed : InCanvas 10001 1 ((0 : Int), (0 : Int)) := by decide
  have hrec := floodFill_records rowManager 0 0 white "fill-1" (by
    show colorsMatch (getPixelColor (uniformData 10001 1 0 0 0 255) (Int.floor (0 : ℚ))
      (Int.floor (0 : ℚ)) 10001) white.toPixel = false
    rw [Int.floor_zero, getPixelColor_uniform 10001 1 0 0 0 255 (0, 0) hseed]
    decide)
  have hpx : (floodRun rowManager.data rowManager.width rowManager.height
      (Int.floor (0 : ℚ)) (Int.floor (0 : ℚ))).pixelsToFill = rowRecord 10001 := by
    rw [Int.floor_zero]
    show (floodRun (uniformData 10001 1 0 0 0 255) 10001 1 0 0).pixelsToFill = rowRecord 10001
    rw [floodRun_row 10001 0 0 0 255 (by simp)]
  refine ⟨rfl, by simp [rowManager], by decide, by decide, _, _, hrec, rfl, ?_⟩
  rw [hpx]
  simp [rowRecord, rowManager]

/-! ## Pixel writes -/

theorem getPixelColor_nat (data : List Nat) (x y width : Nat) :
    getPixelColor data (x : Int) (y : Int) width =
      { r := data[(y * width + x) * 4]?, g := data[(y * width + x) * 4 + 1]?
        b := data[(y * width + x) * 4 + 2]?, a := data[(y * width + x) * 4 + 3]? } := by
  have e : ((y : Int) * (width : Int) + (x : Int)) * 4 = (((y * width + x) * 4 : ℕ) : Int) := by
    push_cast; ring
  unfold getPixelColor readByte
  simp only [e]
  have c0 : (0 : Int) ≤ (((y * width + x) * 4 : ℕ) : Int) := Int.ofNat_nonneg _
  have c1 : (0 : Int) ≤ (((y * width + x) * 4 : ℕ) : Int) + 1 := by omega
  have c2 : (0 : Int) ≤ (((y * width + x) * 4 : ℕ) : Int) + 2 := by omega
  have c3 : (0 : Int) ≤ (((y * width + x) * 4 : ℕ) : Int) + 3 := by omega
  have t1 : ((((y * width + x) * 4 : ℕ) : Int) + 1).toNat = (y * width + x) * 4 + 1 := by omega
  have t2 : ((((y * width + x) * 4 : ℕ) : Int) + 2).toNat = (y * width + x) * 4 + 2 := by omega
  have t3 : ((((y * width + x) * 4 : ℕ) : Int) + 3).toNat = (y * width + x) * 4 + 3 := by omega
  rw [if_pos c0, if_pos c1, if_pos c2, if_pos c3, t1, t2, t3, Int.toNat_ofNat]

theorem setPixelColor_nat (data : List Nat) (x y width r g b : Nat) :
    setPixelColor data (x : Int) (y : Int) width r g b =
      (((data.set ((y * width + x) * 4) r).set ((y * width + x) * 4 + 1) g).set
        ((y * width + x) * 4 + 2) b).set ((y * width + x) * 4 + 3) 255 := by
  have e : ((y : Int) * (width : Int) + (x : Int)) * 4 = (((y * width + x) * 4 : ℕ) : Int) := by
    push_cast; ring
  unfold setPixelColor writeByte
  simp only [e]
  have c0 : (0 : Int) ≤ (((y * width + x) * 4 : ℕ) : Int) := Int.ofNat_nonneg _
  have c1 : (0 : Int) ≤ (((y * width + x) * 4 : ℕ) : Int) + 1 := by omega
  have c2 : (0 : Int) ≤ (((y * width + x) * 4 : ℕ) : Int) + 2 := by omega
  have c3 : (0 : Int) ≤ (((y * width + x) * 4 : ℕ) : Int) + 3 := by omega
  have t1 : ((((y * width + x) * 4 : ℕ) : Int) + 1).toNat = (y * width + x) * 4 + 1 := by omega
  have t2 : ((((y * width + x) * 4 : ℕ) : Int) + 2).toNat = (y * width + x) * 4 + 2 := by omega
  have t3 : ((((y * width + x) * 4 : ℕ) : Int) + 3).toNat = (y * width + x) * 4 + 3 := by omega
  rw [if_pos c0, if_pos c1, if_pos c2, if_pos c3, t1, t2, t3, Int.toNat_ofNat]

theorem pixel_index_lt (x y width height : Nat) (hx : x < width) (hy : y < height) :
    y * width + x < width * height := by
  calc y * width + x < y * width + width := by omega
    _ = (y + 1) * width := by ring
    _ ≤ height * width := Nat.mul_le_mul_right _ hy
    _ = width * height := Nat.mul_comm _ _

theorem pixel_index_inj (x y x' y' width : Nat) (hx : x < width) (hx' : x' < width)
    (h : y * width + x = y' * width + x') : x = x' ∧ y = y' := by
  have hw : 0 < width := by omega
  have h1 : (x + y * width) % width = (x' + y' * width) % width := by
    rw [Nat.add_comm x, Nat.add_comm x', h]
  have h2 : (x + y * width) / width = (x' + y' * width) / width := by
    rw [Nat.add_comm x, Nat.add_comm x', h]
  rw [Nat.add_mul_mod_self_right, Nat.add_mul_mod_self_right, Nat.mod_eq_of_lt hx,
    Nat.mod_eq_of_lt hx'] at h1
  rw [Nat.add_mul_div_right _ _ hw, Nat.add_mul_div_right _ _ hw, Nat.div_eq_of_lt hx,
    Nat.div_eq_of_lt hx'] at h2
  omega

/-- Writing one pixel of a well-sized raster changes that pixel and no other. -/
theorem getPixelColor_setPixelColor (data : List Nat) (width height r g b : Nat)
    (hlen : data.length = 4 * width * height) (p q : Int × Int)
    (hp : InCanvas width height p) (hq : InCanvas width height q) :
    getPixelColor (setPixelColor data p.1 p.2 width r g b) q.1 q.2 width =
      if q = p then { r := some r, g := some g, b := some b, a := some 255 }
      else getPixelColor data q.1 q.2 width := by
  obtain ⟨x, y⟩ := p
  obtain ⟨x', y'⟩ := q
  obtain ⟨hx0, hx1, hy0, hy1⟩ := hp
  obtain ⟨hx0', hx1', hy0', hy1'⟩ := hq
  simp only at hx0 hx1 hy0 hy1 hx0' hx1' hy0' hy1'
  lift x to ℕ using hx0
  lift y to ℕ using hy0
  lift x' to ℕ using hx0'
  lift y' to ℕ using hy0'
  have hx : x < width := by exact_mod_cast hx1
  have hy : y < height := by exact_mod_cast hy1
  have hx' : x' < width := by exact_mod_cast hx1'
  have hy' : y' < height := by exact_mod_cast hy1'
  have hn := pixel_index_lt x y width height hx hy
  have hm := pixel_index_lt x' y' width height hx' hy'
  rw [Nat.mul_assoc] at hlen
  simp only [setPixelColor_nat, getPixelColor_nat]
  by_cases heq : ((x' : Int), (y' : Int)) = ((x : Int), (y : Int))
  · rw [if_pos heq]
    have h1' : (x' : Int) = (x : Int) := congrArg Prod.fst heq
    have h2' : (y' : Int) = (y : Int) := congrArg Prod.snd heq
    have h1 : x' = x := by omega
    have h2 : y' = y := by omega
    subst h1 h2
    simp only [List.getElem?_set, List.length_set]
    simp
    omega
  · rw [if_neg heq]
    have hne : y' * width + x' ≠ y * width + x := by
      intro h
      obtain ⟨h1, h2⟩ := pixel_index_inj x' y' x y width hx' hx h
      exact heq (by rw [h1, h2])
    simp only [List.getElem?_set, List.length_set]
    have a0 : ¬ (y * width + x) * 4 + 3 = (y' * width + x') * 4 := by omega
    have a1 : ¬ (y * width + x) * 4 + 2 = (y' * width + x') * 4 := by omega
    have a2 : ¬ (y * width + x) * 4 + 1 = (y' * width + x') * 4 := by omega
    have a3 : ¬ (y * width + x) * 4 = (y' * width + x') * 4 := by omega
    have b0 : ¬ (y * width + x) * 4 + 3 = (y' * width + x') * 4 + 1 := by omega
    have b1 : ¬ (y * width + x) * 4 + 2 = (y' * width + x') * 4 + 1 := by omega
    have b2 : ¬ (y * width + x) * 4 + 1 = (y' * width + x') * 4 + 1 := by omega
    have b3 : ¬ (y * width + x) * 4 = (y' * width + x') * 4 + 1 := by omega
    have c0 : ¬ (y * width + x) * 4 + 3 = (y' * width + x') * 4 + 2 := by omega
    have c1 : ¬ (y * width + x) * 4 + 2 = (y' * width + x') * 4 + 2 := by omega
    have c2 : ¬ (y * width + x) * 4 + 1 = (y' * width + x') * 4 + 2 := by omega
    have c3 : ¬ (y * width + x) * 4 = (y' * width + x') * 4 + 2 := by omega
    have d0 : ¬ (y * width + x) * 4 + 3 = (y' * width + x') * 4 + 3 := by omega
    have d1 : ¬ (y * width + x) * 4 + 2 = (y' * width + x') * 4 + 3 := by omega
    have d2 : ¬ (y * width + x) * 4 + 1 = (y' * width + x') * 4 + 3 := by omega
    have d3 : ¬ (y * width + x) * 4 = (y' * width + x') * 4 + 3 := by omega
    simp only [a0, a1, a2, a3, b0, b1, b2, b3, c0, c1, c2, c3, d0, d1, d2, d3, if_false]

theorem setPixelColor_length (data : List Nat) (x y : Int) (width r g b : Nat) :
    (setPixelColor data x y width r g b).length = data.length := by
  unfold setPixelColor writeByte
  simp only []
  split_ifs <;> simp only [List.length_set]

/-- The pixel loop of a fill paints exactly the listed pixels. -/
theorem putPixels_spec (width height : Nat) (c : Color) :
    ∀ (pixels : List (Int × Int)) (data : List Nat), data.length = 4 * width * height →
      (∀ p ∈ pixels, InCanvas width height p) →
      (putPixels data width c pixels).length = data.length ∧
      ∀ q, InCanvas width height q →
        getPixelColor (putPixels data width c pixels) q.1 q.2 width =
          if q ∈ pixels then
            { r := some c.r.val, g := some c.g.val, b := some c.b.val, a := some 255 }
          else getPixelColor data q.1 q.2 width := by
  intro pixels
  induction pixels with
  | nil =>
    intro data _ _
    exact ⟨rfl, fun q _ => by simp [putPixels]⟩
  | cons p ps ih =>
    intro data hlen hin
    have hp := hin p (List.mem_cons_self _ _)
    have hlen1 : (setPixelColor data p.1 p.2 width c.r.val c.g.val c.b.val).length =
        4 * width * height := by rw [setPixelColor_length, hlen]
    obtain ⟨h1, h2⟩ := ih (setPixelColor data p.1 p.2 width c.r.val c.g.val c.b.val) hlen1
      (fun q hq => hin q (List.mem_cons_of_mem _ hq))
    have hstep : putPixels data width c (p :: ps) =
        putPixels (setPixelColor data p.1 p.2 width c.r.val c.g.val c.b.val) width c ps := rfl
    rw [hstep]
    refine ⟨by rw [h1, setPixelColor_length], ?_⟩
    intro q hq
    rw [h2 q hq, getPixelColor_setPixelColor data width height _ _ _ hlen p q hp hq]
    by_cases hqp : q = p
    · simp [hqp]
    · by_cases hqs : q ∈ ps
      · simp [hqs]
      · simp [hqp, hqs]

/-! ## Fill replay -/

/-- C6 (fill replay is verbatim).  For a fill stroke whose `fillPixels` all lie inside the
canvas (the raster having its `4 * width * height` bytes), `redrawStroke` returns having
changed nothing but the raster: every listed pixel is the stroke's colour with alpha 255,
every other pixel of the canvas is as before, and the store, the heap of stroke objects
(so the stroke's `fillPixels`) and the draw machine are untouched. -/
theorem redrawStroke_fill_verbatim (E : Host) (s : CanvasManager) (stroke : Stroke)
    (fillPixels : List (Int × Int)) (htool : stroke.tool = .fill)
    (hpx : stroke.fillPixels = some fillPixels)
    (hlen : s.data.length = 4 * s.width * s.height)
    (hin : ∀ p ∈ fillPixels, InCanvas s.width s.height p) :
    ∃ data', redrawStroke E s stroke = .ok { s with data := data' } ∧
      data'.length = s.data.length ∧
      ∀ q, InCanvas s.width s.height q →
        getPixelColor data' q.1 q.2 s.width =
          if q ∈ fillPixels then
            { r := some stroke.color.r.val, g := some stroke.color.g.val
              b := some stroke.color.b.val, a := some 255 }
          else getPixelColor s.data q.1 q.2 s.width := by
  obtain ⟨h1, h2⟩ := putPixels_spec s.width s.height stroke.color fillPixels s.data hlen hin
  refine ⟨putPixels s.data s.width stroke.color fillPixels, ?_, h1, h2⟩
  unfold redrawStroke
  rw [htool, hpx]

theorem redrawStroke_fill_verbatim_witness :
    (sampleManager.data.length = 4 * sampleManager.width * sampleManager.height ∧
      ∀ p ∈ [((0 : Int), (0 : Int)), (1, 1)], InCanvas sampleManager.width sampleManager.height p) ∧
    ∃ data', redrawStroke sampleHost sampleManager sampleFill =
        .ok { sampleManager with data := data' } ∧
      data'.length = sampleManager.data.length ∧
      ∀ q, InCanvas sampleManager.width sampleManager.height q →
        getPixelColor data' q.1 q.2 sampleManager.width =
          if q ∈ [((0 : Int), (0 : Int)), (1, 1)] then
            { r := some 255, g := some 0, b := some 0, a := some 255 }
          else getPixelColor sampleManager.data q.1 q.2 sampleManager.width :=
  ⟨⟨by decide, by decide⟩,
    redrawStroke_fill_verbatim sampleHost sampleManager sampleFill [(0, 0), (1, 1)] rfl rfl
      (by decide) (by decide)⟩

/-! ## Point accumulation and replay -/

theorem isShape_of_freehand {t : Tool} (ht : t = .brush ∨ t = .eraser) :
    t.isShape = false ∧ t ≠ .sparkle ∧ t ≠ .fill := by
  rcases ht with h | h <;> subst h <;> exact ⟨rfl, by decide, by decide⟩

/-- One `draw` call on a brush or eraser stroke in progress appends the point to the
current stroke and changes nothing else but the raster. -/
theorem draw_freehand (E : Host) (s : CanvasManager) (p : Point) (n : Nat) (st : Stroke)
    (pts : List Point) (hd : s.isDrawing = true) (ht : s.tool = .brush ∨ s.tool = .eraser)
    (hc : s.currentStroke = some n) (hh : s.heap[n]? = some st)
    (hp : st.points = some pts) (hne : pts ≠ []) :
    ∃ data', draw E s p =
      .ok { s with data := data'
                   heap := s.heap.set n { st with points := some (pts ++ [p]) } } := by
  obtain ⟨h1, h2, _⟩ := isShape_of_freehand ht
  unfold draw
  simp only [hd, hc, hh, h1, hp, Bool.true_eq_false, if_false, Bool.false_eq_true]
  rw [if_neg h2, List.reverse_append]
  cases hr : pts.reverse with
  | nil => exact absurd (List.reverse_eq_nil_iff.mp hr) hne
  | cons l rest =>
    simp only [List.reverse_cons, List.reverse_nil, List.nil_append, List.singleton_append]
    exact ⟨_, rfl⟩

theorem drawEach_freehand (E : Host) (n : Nat) :
    ∀ (ps : List Point) (s : CanvasManager) (st : Stroke) (pts : List Point),
      s.isDrawing = true → (s.tool = .brush ∨ s.tool = .eraser) →
      s.currentStroke = some n → s.heap[n]? = some st → st.points = some pts → pts ≠ [] →
      ∃ s' st', drawEach E ps s = .ok s' ∧ s'.isDrawing = true ∧ s'.tool = s.tool ∧
        s'.currentStroke = some n ∧ s'.strokes = s.strokes ∧
        s'.heap[n]? = some st' ∧ st'.points = some (pts ++ ps) := by
  intro ps
  induction ps with
  | nil =>
    intro s st pts hd _ hc hh hp _
    exact ⟨s, st, rfl, hd, rfl, hc, rfl, hh, by simpa using hp⟩
  | cons p ps ih =>
    intro s st pts hd ht hc hh hp hne
    obtain ⟨data', he⟩ := draw_freehand E s p n st pts hd ht hc hh hp hne
    have hn : n < s.heap.length := (List.getElem?_eq_some_iff.mp hh).1
    obtain ⟨s', st', h1, h2, h3, h4, h5, h6, h7⟩ :=
      ih { s with data := data', heap := s.heap.set n { st with points := some (pts ++ [p]) } }
        { st with points := some (pts ++ [p]) } (pts ++ [p]) hd ht hc
        (List.getElem?_set_self hn) rfl (by simp)
    refine ⟨s', st', ?_, h2, h3, h4, h5, h6, ?_⟩
    · unfold drawEach
      rw [he]
      exact h1
    · rw [h7, List.append_assoc]
      rfl

/-- Local authoring with the brush or the eraser stores `[anchor, p₁, …, pₙ]`. -/
theorem localStroke_points (E : Host) (s : CanvasManager) (anchor : Point)
    (moves : List Point) (strokeId fillStrokeId : String)
    (ht : s.tool = .brush ∨ s.tool = .eraser) :
    ∃ s' stroke, localStroke E s anchor moves strokeId fillStrokeId = .ok s' ∧
      s'.getStroke strokeId = some stroke ∧ stroke.points = some (anchor :: moves) := by
  obtain ⟨h1, h2, h3⟩ := isShape_of_freehand ht
  have hstart : ∃ s1 st, startDrawing E s anchor strokeId fillStrokeId = .ok s1 ∧
      s1.isDrawing = true ∧ s1.tool = s.tool ∧ s1.currentStroke = some s.heap.length ∧
      mapGet s1.strokes strokeId = some s.heap.length ∧
      s1.heap[s.heap.length]? = some st ∧ st.points = some [anchor] := by
    unfold startDrawing
    simp only [h1, h2, h3, if_false, Bool.false_eq_true]
    refine ⟨_, { id := strokeId, points := some [anchor]
                 color := if s.tool = .eraser then white else s.color
                 lineWidth := s.lineWidth, tool := s.tool, userId := none, start := none
                 end_ := none, fillPixels := none }, rfl, rfl, rfl, rfl, ?_, ?_, rfl⟩
    · exact mapGet_mapSet_self _ _ _
    · exact List.getElem?_concat_length _ _
  obtain ⟨s1, st, he1, hd1, ht1, hc1, hm1, hh1, hp1⟩ := hstart
  obtain ⟨s2, st2, he2, hd2, ht2, hc2, hs2, hh2, hp2⟩ :=
    drawEach_freehand E s.heap.length moves s1 st [anchor] hd1 (ht1 ▸ ht) hc1 hh1 hp1 (by simp)
  have hshape2 : s2.tool.isShape = false := by rw [ht2, ht1]; exact h1
  refine ⟨{ s2 with isDrawing := false, currentStroke := none, startPoint := none }, st2,
    ?_, ?_, by simpa using hp2⟩
  · unfold localStroke
    rw [he1]
    simp only [Outcome.bind]
    rw [he2]
    simp only [Outcome.bind]
    unfold stopDrawing
    simp [hd2, hshape2]
  · unfold CanvasManager.getStroke
    simp only [hs2, hm1, hh2]


/-- One `remoteDrawMove` on a stored brush or eraser stroke appends the point to that
stroke and changes nothing else but the raster. -/
theorem remoteDrawMove_freehand (E : Host) (s : CanvasManager) (d : DrawMove) (n : Nat)
    (st : Stroke) (pts : List Point) (hm : mapGet s.strokes d.strokeId = some n)
    (hh : s.heap[n]? = some st) (ht : st.tool = .brush ∨ st.tool = .eraser)
    (hp : st.points = some pts) :
    ∃ data', remoteDrawMove E s d =
      .ok { s with data := data'
                   heap := s.heap.set n { st with points := some (pts ++ [⟨d.x, d.y⟩]) } } := by
  obtain ⟨h1, h2, _⟩ := isShape_of_freehand ht
  unfold remoteDrawMove
  simp only [hm, hh, h1, hp, if_false, Bool.false_eq_true]
  rw [if_neg h2]
  split
  · exact ⟨_, rfl⟩
  · exact ⟨s.data, rfl⟩

theorem remoteDrawMoveEach_freehand (E : Host) (strokeId : String) (n : Nat) :
    ∀ (ps : List Point) (s : CanvasManager) (st : Stroke) (pts : List Point),
      mapGet s.strokes strokeId = some n → s.heap[n]? = some st →
      (st.tool = .brush ∨ st.tool = .eraser) → st.points = some pts →
      ∃ s' st', remoteDrawMoveEach E strokeId ps s = .ok s' ∧
        mapGet s'.strokes strokeId = some n ∧ s'.heap[n]? = some st' ∧
        st'.tool = st.tool ∧ st'.points = some (pts ++ ps) := by
  intro ps
  induction ps with
  | nil =>
    intro s st pts hm hh _ hp
    exact ⟨s, st, rfl, hm, hh, rfl, by simpa using hp⟩
  | cons p ps ih =>
    intro s st pts hm hh ht hp
    obtain ⟨data', he⟩ := remoteDrawMove_freehand E s
      { strokeId := strokeId, x := p.x, y := p.y } n st pts hm hh ht hp
    have hn : n < s.heap.length := (List.getElem?_eq_some_iff.mp hh).1
    obtain ⟨s', st', h1, h2, h3, h4, h5⟩ :=
      ih { s with data := data', heap := s.heap.set n { st with points := some (pts ++ [p]) } }
        { st with points := some (pts ++ [p]) } (pts ++ [p]) hm
        (List.getElem?_set_self hn) ht rfl
    refine ⟨s', st', ?_, h2, h3, h4, ?_⟩
    · unfold remoteDrawMoveEach
      rw [he]
      exact h1
    · rw [h5, List.append_assoc]
      rfl

/-- Remote replay of a brush or eraser stroke stores `[anchor, p₁, …, pₙ]`. -/
theorem remoteStroke_points (E : Host) (s : CanvasManager) (d : DrawStart)
    (moves : List Point) (ht : d.tool = .brush ∨ d.tool = .eraser) :
    ∃ s' stroke, remoteStroke E s d moves = .ok s' ∧
      s'.getStroke d.strokeId = some stroke ∧
      stroke.points = some (⟨d.x, d.y⟩ :: moves) := by
  obtain ⟨h1, h2, h3⟩ := isShape_of_freehand ht
  have hstart : ∃ s1 st, remoteDrawStart E s d = .ok s1 ∧
      mapGet s1.strokes d.strokeId = some s.heap.length ∧
      s1.heap[s.heap.length]? = some st ∧ st.tool = d.tool ∧
      st.points = some [⟨d.x, d.y⟩] := by
    unfold remoteDrawStart
    simp only [h1, h2, if_false, Bool.false_eq_true, if_true]
    refine ⟨_, { id := d.strokeId, points := some [⟨d.x, d.y⟩]
                 color := if d.tool = .eraser then white else d.color
                 lineWidth := d.lineWidth, tool := d.tool, userId := d.userId, start := none
                 end_ := none, fillPixels := none }, rfl, ?_, ?_, rfl, rfl⟩
    · exact mapGet_mapSet_self _ _ _
    · exact List.getElem?_concat_length _ _
  obtain ⟨s1, st, he1, hm1, hh1, ht1, hp1⟩ := hstart
  obtain ⟨s2, st2, he2, hm2, hh2, ht2, hp2⟩ :=
    remoteDrawMoveEach_freehand E d.strokeId s.heap.length moves s1 st [⟨d.x, d.y⟩] hm1 hh1
      (ht1 ▸ ht) hp1
  have hshape2 : st2.tool.isShape = false := by rw [ht2, ht1]; exact h1
  refine ⟨s2, st2, ?_, ?_, by simpa using hp2⟩
  · unfold remoteStroke
    rw [he1]
    simp only [Outcome.bind]
    rw [he2]
    simp only [Outcome.bind]
    unfold remoteDrawEnd
    simp [hm2, hh2, hshape2]
  · unfold CanvasManager.getStroke
    simp only [hm2, hh2]

/-- C7 (replay fidelity).  With the brush or the eraser selected, for every anchor and
every sequence of moves, local authoring (`startDrawing`, `draw` …, `stopDrawing`) returns
and leaves under the stroke id a stroke whose points are exactly `[a, p₁, …, pₙ]`; remote
replay of the same anchor and moves (`remoteDrawStart`, `remoteDrawMove` …,
`remoteDrawEnd`), on any canvas manager, returns and leaves a stroke with the same
points. -/
theorem replay_fidelity (E : Host) (sl sr : CanvasManager) (anchor : Point)
    (moves : List Point) (strokeId fillStrokeId remoteId : String) (color : Color)
    (lineWidth : ℚ) (userId : Option String)
    (ht : sl.tool = .brush ∨ sl.tool = .eraser) :
    ∃ sl' sr' drawn replayed,
      localStroke E sl anchor moves strokeId fillStrokeId = .ok sl' ∧
      sl'.getStroke strokeId = some drawn ∧
      remoteStroke E sr
        { strokeId := remoteId, tool := sl.tool, color := color, lineWidth := lineWidth
          x := anchor.x, y := anchor.y, userId := userId } moves = .ok sr' ∧
      sr'.getStroke remoteId = some replayed ∧
      drawn.points = some (anchor :: moves) ∧ replayed.points = drawn.points := by
  obtain ⟨sl', drawn, h1, h2, h3⟩ :=
    localStroke_points E sl anchor moves strokeId fillStrokeId ht
  obtain ⟨sr', replayed, h4, h5, h6⟩ := remoteStroke_points E sr
    { strokeId := remoteId, tool := sl.tool, color := color, lineWidth := lineWidth
      x := anchor.x, y := anchor.y, userId := userId } moves ht
  exact ⟨sl', sr', drawn, replayed, h1, h2, h4, h5, h3, by rw [h3, h6]⟩

theorem replay_fidelity_witness :
    (sampleManager.tool = .brush ∨ sampleManager.tool = .eraser) ∧
    ∃ sl' sr' drawn replayed,
      localStroke sampleHost sampleManager ⟨10, 10⟩ [⟨12, 10⟩, ⟨14, 12⟩] "local-1" "local-2" =
        .ok sl' ∧
      sl'.getStroke "local-1" = some drawn ∧
      remoteStroke sampleHost sampleManager
        { strokeId := "local-1", tool := sampleManager.tool, color := red, lineWidth := 5
          x := 10, y := 10, userId := some "u1" } [⟨12, 10⟩, ⟨14, 12⟩] = .ok sr' ∧
      sr'.getStroke "local-1" = some replayed ∧
      drawn.points = some [⟨10, 10⟩, ⟨12, 10⟩, ⟨14, 12⟩] ∧ replayed.points = drawn.points :=
  ⟨Or.inl rfl, replay_fidelity sampleHost sampleManager sampleManager ⟨10, 10⟩
    [⟨12, 10⟩, ⟨14, 12⟩] "local-1" "local-2" "local-1" red 5 (some "u1") (Or.inl rfl)⟩

/-- C8 at its failing inputs.  With the sparkle tool, `startDrawing` leaves the anchor twice in
the stored stroke and every `draw` appends its point twice; a replayed sparkle stroke keeps
its single first point whatever the moves. -/
theorem sparkle_points_diverge :
    ((startDrawing sampleHost (setTool sampleManager .sparkle) ⟨10, 10⟩ "local-1"
        "local-2").state.getStroke "local-1").map (fun st => st.points) =
      some (some [⟨10, 10⟩, ⟨10, 10⟩]) ∧
    ((localStroke sampleHost (setTool sampleManager .sparkle) ⟨10, 10⟩ [⟨12, 10⟩] "local-1"
        "local-2").state.getStroke "local-1").map (fun st => st.points) =
      some (some [⟨10, 10⟩, ⟨10, 10⟩, ⟨12, 10⟩, ⟨12, 10⟩]) ∧
    ((remoteStroke sampleHost sampleManager
        { strokeId := "remote-1", tool := .sparkle, color := red, lineWidth := 5
          x := 10, y := 10, userId := some "u1" }
        [⟨12, 10⟩]).state.getStroke "remote-1").map (fun st => st.points) =
      some (some [⟨10, 10⟩]) := by
  decide

/-- C9 at its failing input.  With one sparkle stroke of one point in the store, a line
committed by `finishShape` (a click: mouse down, mouse up) is stored with three points, and
a circle with 66. -/
theorem finishShape_sparkle_pollutes :
    ((localStroke sampleHost sparkleManager ⟨0, 0⟩ [] "local-1"
        "local-2").state.getStroke "local-1").map (fun st => st.points) =
      some (some [⟨0, 0⟩, ⟨0, 0⟩, ⟨5, 5⟩]) ∧
    ((localStroke sampleHost (setTool sparkleManager .circle) ⟨0, 0⟩ [] "local-1"
        "local-2").state.getStroke "local-1").map
          (fun st => st.points.map (fun pts => pts.length)) =
      some (some 66) := by
  decide

/-! ## Geometry expansion: the claims -/

theorem min_add_abs_sub (a b : ℚ) : min a b + |b - a| = max a b := by
  rcases le_total a b with h | h
  · rw [min_eq_left h, max_eq_right h, abs_of_nonneg (sub_nonneg.mpr h)]
    ring
  · rw [min_eq_right h, max_eq_left h, abs_of_nonpos (sub_nonpos.mpr h)]
    ring

/-- C10 (geometry expansion of line, rectangle and square, in exact arithmetic).  For every
start `s` and end `e`, `finishShape` expands a line to `[s, e]`; a rectangle to the five
points `(xmin, ymin), (xmax, ymin), (xmax, ymax), (xmin, ymax), (xmin, ymin)` of the
per-axis minima and maxima of `s` and `e`; a square to the closed five-point axis-aligned
square with corner `(x₀, y₀)` and side `max |e.x - s.x| |e.y - s.y|` that has `s` as a
corner, extends from `s` towards `e` on each axis (towards `+x`, `+y` when the delta is
zero) and contains `e`. -/
theorem finishShape_geometry (E : Host) (s e : Point) :
    finishShapePoints E .line (some s) (some e) = some [s, e] ∧
    finishShapePoints E .rectangle (some s) (some e) =
      some [⟨min s.x e.x, min s.y e.y⟩, ⟨max s.x e.x, min s.y e.y⟩,
        ⟨max s.x e.x, max s.y e.y⟩, ⟨min s.x e.x, max s.y e.y⟩,
        ⟨min s.x e.x, min s.y e.y⟩] ∧
    ∃ x0 y0 side : ℚ,
      finishShapePoints E .square (some s) (some e) =
        some [⟨x0, y0⟩, ⟨x0 + side, y0⟩, ⟨x0 + side, y0 + side⟩, ⟨x0, y0 + side⟩, ⟨x0, y0⟩] ∧
      side = max |e.x - s.x| |e.y - s.y| ∧
      (s.x ≤ e.x → x0 = s.x) ∧ (e.x < s.x → x0 + side = s.x) ∧
      (s.y ≤ e.y → y0 = s.y) ∧ (e.y < s.y → y0 + side = s.y) ∧
      x0 ≤ e.x ∧ e.x ≤ x0 + side ∧ y0 ≤ e.y ∧ e.y ≤ y0 + side := by
  refine ⟨rfl, ?_, ?_⟩
  · simp only [finishShapePoints, min_add_abs_sub]
  · refine ⟨s.x + (if e.x - s.x < 0 then -(max |e.x - s.x| |e.y - s.y|) else 0),
      s.y + (if e.y - s.y < 0 then -(max |e.x - s.x| |e.y - s.y|) else 0),
      max |e.x - s.x| |e.y - s.y|, rfl, rfl, ?_, ?_, ?_, ?_, ?_, ?_, ?_, ?_⟩
    · intro h
      rw [if_neg (by linarith)]
      ring
    · intro h
      rw [if_pos (by linarith)]
      ring
    · intro h
      rw [if_neg (by linarith)]
      ring
    · intro h
      rw [if_pos (by linarith)]
      ring
    · have h1 := le_max_left |e.x - s.x| |e.y - s.y|
      have h2 := neg_abs_le (e.x - s.x)
      split_ifs with h <;> linarith
    · have h1 := le_max_left |e.x - s.x| |e.y - s.y|
      have h2 := le_abs_self (e.x - s.x)
      split_ifs with h <;> linarith
    · have h1 := le_max_right |e.x - s.x| |e.y - s.y|
      have h2 := neg_abs_le (e.y - s.y)
      split_ifs with h <;> linarith
    · have h1 := le_max_right |e.x - s.x| |e.y - s.y|
      have h2 := le_abs_self (e.y - s.y)
      split_ifs with h <;> linarith

/-! ## The store under redraw -/

theorem sameShell_refl (s : CanvasManager) : SameShell s s :=
  ⟨rfl, rfl, rfl, rfl, rfl, rfl, rfl, rfl, rfl, rfl⟩

theorem sameShell_trans {s s1 s2 : CanvasManager} (h1 : SameShell s s1) (h2 : SameShell s1 s2) :
    SameShell s s2 := by
  obtain ⟨a1, a2, a3, a4, a5, a6, a7, a8, a9, a10⟩ := h1
  obtain ⟨b1, b2, b3, b4, b5, b6, b7, b8, b9, b10⟩ := h2
  exact ⟨b1.trans a1, b2.trans a2, b3.trans a3, b4.trans a4, b5.trans a5, b6.trans a6,
    b7.trans a7, b8.trans a8, b9.trans a9, b10.trans a10⟩

theorem sameShell_ctx (E : Host) (op : CtxOp) (s : CanvasManager) :
    SameShell s (s.ctx E op) :=
  ⟨rfl, rfl, rfl, rfl, rfl, rfl, rfl, rfl, rfl, rfl⟩

theorem sameShell_bind {s : CanvasManager} {o : Outcome} {f : CanvasManager → Outcome}
    (h1 : SameShell s o.state) (h2 : ∀ s1, SameShell s s1 → SameShell s (f s1).state) :
    SameShell s (o.bind f).state := by
  cases o with
  | ok s1 => exact h2 s1 h1
  | threw s1 => exact h1

theorem addSparkle_shell (E : Host) (s : CanvasManager) (x y : ℚ) (color : Color) :
    SameShell s (addSparkle E s x y color).state := by
  unfold addSparkle
  simp only []
  split
  · exact sameShell_ctx E _ s
  · split
    · exact sameShell_ctx E _ s
    · split
      · exact sameShell_ctx E _ s
      · exact ⟨rfl, rfl, rfl, rfl, rfl, rfl, by simp [Outcome.state, CanvasManager.ctx],
          rfl, rfl, rfl⟩

theorem sparkleEach_shell (E : Host) (color : Color) :
    ∀ (pts : List Point) (s : CanvasManager), SameShell s (sparkleEach E color pts s).state := by
  intro pts
  induction pts with
  | nil => intro s; exact sameShell_refl s
  | cons p rest ih =>
    intro s
    unfold sparkleEach
    exact sameShell_bind (addSparkle_shell E s p.x p.y color)
      (fun s1 h1 => sameShell_trans h1 (ih s1))

theorem drawSegments_shell (E : Host) (stroke : Stroke) :
    ∀ (pts : List Point) (s : CanvasManager), SameShell s (drawSegments E stroke pts s) := by
  intro pts
  induction pts with
  | nil => intro s; exact sameShell_refl s
  | cons p rest ih =>
    intro s
    cases rest with
    | nil => exact sameShell_refl s
    | cons q rest =>
      unfold drawSegments
      exact sameShell_trans (sameShell_ctx E _ s) (ih _)

theorem redrawStroke_shell (E : Host) (s : CanvasManager) (stroke : Stroke) :
    SameShell s (redrawStroke E s stroke).state := by
  unfold redrawStroke
  split
  · exact ⟨rfl, rfl, rfl, rfl, rfl, rfl, rfl, rfl, rfl, rfl⟩
  · split
    · exact sameShell_refl s
    · exact sameShell_refl s
    · simp only []
      split_ifs
      · exact sameShell_ctx E _ s
      · exact sameShell_ctx E _ s
      · exact sameShell_ctx E _ s
      · exact sameShell_ctx E _ s
      · exact sameShell_ctx E _ s
      · exact sparkleEach_shell E _ _ s
      · exact sameShell_trans (sameShell_ctx E _ s) (drawSegments_shell E stroke _ _)

theorem redrawEach_shell (E : Host) :
    ∀ (l : List (String × Nat)) (s : CanvasManager), SameShell s (redrawEach E l s).state := by
  intro l
  induction l with
  | nil => intro s; exact sameShell_refl s
  | cons e rest ih =>
    intro s
    obtain ⟨k, ref⟩ := e
    unfold redrawEach
    split
    · exact ih s
    · exact sameShell_bind (redrawStroke_shell E s _) (fun s1 h1 => sameShell_trans h1 (ih s1))

/-- A redraw, whether it returns or throws, changes at most the raster and the contents
of stroke objects. -/
theorem redraw_shell (E : Host) (s : CanvasManager) : SameShell s (redraw E s).state := by
  unfold redraw
  exact sameShell_trans (sameShell_ctx E _ s) (redrawEach_shell E _ _)

/-! ## The map of the store -/

theorem mapGet_eq_none {m : List (String × Nat)} {k : String} (h : k ∉ m.map Prod.fst) :
    mapGet m k = none := by
  induction m with
  | nil => rfl
  | cons e m ih =>
    obtain ⟨k', v'⟩ := e
    simp only [List.map_cons, List.mem_cons, not_or] at h
    unfold mapGet
    rw [if_neg (fun hk => h.1 hk.symm)]
    exact ih h.2

theorem mapGet_isSome {m : List (String × Nat)} {k : String} (h : k ∈ m.map Prod.fst) :
    ∃ ref, mapGet m k = some ref := by
  induction m with
  | nil => simp at h
  | cons e m ih =>
    obtain ⟨k', v'⟩ := e
    unfold mapGet
    by_cases hk : k' = k
    · rw [if_pos hk]; exact ⟨v', rfl⟩
    · rw [if_neg hk]
      simp only [List.map_cons, List.mem_cons] at h
      rcases h with h | h
      · exact absurd h.symm hk
      · exact ih h

theorem mapSet_of_not_mem {m : List (String × Nat)} {k : String} (v : Nat)
    (h : k ∉ m.map Prod.fst) : mapSet m k v = m ++ [(k, v)] := by
  induction m with
  | nil => rfl
  | cons e m ih =>
    obtain ⟨k', v'⟩ := e
    simp only [List.map_cons, List.mem_cons, not_or] at h
    unfold mapSet
    rw [if_neg (fun hk => h.1 hk.symm), ih h.2]
    rfl

theorem mem_mapSet {m : List (String × Nat)} {k : String} {v : Nat} {e : String × Nat}
    (h : e ∈ mapSet m k v) : e ∈ m ∨ e = (k, v) := by
  induction m with
  | nil =>
    simp only [mapSet, List.mem_singleton] at h
    exact Or.inr h
  | cons e' m ih =>
    obtain ⟨k', v'⟩ := e'
    unfold mapSet at h
    by_cases hk : k' = k
    · rw [if_pos hk] at h
      rcases List.mem_cons.mp h with h | h
      · exact Or.inr h
      · exact Or.inl (List.mem_cons_of_mem _ h)
    · rw [if_neg hk] at h
      rcases List.mem_cons.mp h with h | h
      · exact Or.inl (h ▸ List.mem_cons_self _ _)
      · rcases ih h with h | h
        · exact Or.inl (List.mem_cons_of_mem _ h)
        · exact Or.inr h

theorem mapDelete_ids (m : List (String × Nat)) (k : String) :
    (mapDelete m k).map Prod.fst = (m.map Prod.fst).filter (fun i => decide (i ≠ k)) := by
  unfold mapDelete
  rw [List.filter_map]
  rfl

/-! ## Unknown ids, undo, redo, bootstrap: the claims -/

/-- C12 (unknown-id tolerance).  For every store and every stroke id that is not a key of
it, `remoteDrawMove` and `remoteDrawEnd` with that id return without an error and leave
the whole canvas manager, so the store with its ids, their order and every stroke, as it
was. -/
theorem remote_unknown_id (E : Host) (s : CanvasManager) (strokeId : String) (x y : ℚ)
    (h : strokeId ∉ s.ids) :
    remoteDrawMove E s { strokeId := strokeId, x := x, y := y } = .ok s ∧
      remoteDrawEnd E s strokeId = .ok s := by
  have hg : mapGet s.strokes strokeId = none := mapGet_eq_none h
  constructor
  · unfold remoteDrawMove
    simp only [hg]
  · unfold remoteDrawEnd
    simp only [hg]

theorem remote_unknown_id_witness :
    "ghost-id" ∉ sparkleManager.ids ∧
    remoteDrawMove sampleHost sparkleManager { strokeId := "ghost-id", x := 3, y := 4 } =
      .ok sparkleManager ∧
    remoteDrawEnd sampleHost sparkleManager "ghost-id" = .ok sparkleManager :=
  ⟨by decide, remote_unknown_id sampleHost sparkleManager "ghost-id" 3 4 (by decide)⟩

theorem undoStroke_state_ids (E : Host) (s : CanvasManager) (strokeId : String) :
    (undoStroke E s strokeId).state.ids = s.ids.filter (fun i => decide (i ≠ strokeId)) ∧
      (strokeId ∉ s.ids → undoStroke E s strokeId = .ok s) := by
  constructor
  · unfold undoStroke
    cases hg : mapGet s.strokes strokeId with
    | none =>
      have hn : strokeId ∉ s.ids := by
        intro hm
        obtain ⟨ref, hr⟩ := mapGet_isSome hm
        rw [hg] at hr
        exact Option.noConfusion hr
      simp only [Outcome.state]
      symm
      rw [List.filter_eq_self]
      intro i hi
      simp only [decide_eq_true_eq]
      intro hik
      exact hn (hik ▸ hi)
    | some ref =>
      simp only []
      have hs := (redraw_shell E { s with strokes := mapDelete s.strokes strokeId }).2.2.2.2.2.1
      unfold CanvasManager.ids
      rw [hs]
      exact mapDelete_ids s.strokes strokeId
  · intro hn
    unfold undoStroke
    rw [mapGet_eq_none hn]

/-- C14 (undo removes exactly one stroke).  After `undoStroke(strokeId)`, whether the
redraw it triggers returns or throws, the ids of the store in iteration order are the
previous ids with `strokeId` filtered out: every other id is present, in the same relative
order.  When `strokeId` was not in the store the method returns with the canvas manager
unchanged. -/
theorem undoStroke_removes (E : Host) (s : CanvasManager) (strokeId : String) :
    (undoStroke E s strokeId).state.ids = s.ids.filter (fun i => decide (i ≠ strokeId)) ∧
      (strokeId ∉ s.ids → undoStroke E s strokeId = .ok s) :=
  undoStroke_state_ids E s strokeId

/-- What `remoteDrawStart` does to the map of the store, whether it returns or throws. -/
theorem remoteDrawStart_strokes (E : Host) (s : CanvasManager) (d : DrawStart) :
    (remoteDrawStart E s d).state.strokes = mapSet s.strokes d.strokeId s.heap.length := by
  unfold remoteDrawStart
  simp only []
  by_cases h1 : d.tool = .sparkle
  · rw [if_pos h1]
    exact (addSparkle_shell E _ _ _ _).2.2.2.2.2.1
  · rw [if_neg h1]
    by_cases h2 : d.tool.isShape = false
    · rw [if_pos h2]; rfl
    · rw [if_neg h2]; rfl

theorem ids_mapSet_of_not_mem {m : List (String × Nat)} {k : String} (v : Nat)
    (h : k ∉ m.map Prod.fst) : (mapSet m k v).map Prod.fst = m.map Prod.fst ++ [k] := by
  rw [mapSet_of_not_mem v h]
  simp

theorem ids_mapSet (m : List (String × Nat)) (k : String) (v : Nat) (i : String) :
    i ∈ (mapSet m k v).map Prod.fst ↔ i ∈ m.map Prod.fst ∨ i = k := by
  induction m with
  | nil => simp [mapSet]
  | cons e m ih =>
    obtain ⟨k', v'⟩ := e
    unfold mapSet
    by_cases hk : k' = k
    · rw [if_pos hk]
      simp only [List.map_cons, List.mem_cons]
      constructor
      · rintro (h | h)
        · exact Or.inr h
        · exact Or.inl (Or.inr h)
      · rintro ((h | h) | h)
        · exact Or.inl (h.trans hk)
        · exact Or.inr h
        · exact Or.inl h
    · rw [if_neg hk]
      simp only [List.map_cons, List.mem_cons, ih]
      tauto

theorem redrawEach_append (E : Host) (l2 : List (String × Nat)) :
    ∀ (l1 : List (String × Nat)) (s : CanvasManager),
      redrawEach E (l1 ++ l2) s = (redrawEach E l1 s).bind (redrawEach E l2) := by
  intro l1
  induction l1 with
  | nil => intro s; rfl
  | cons e rest ih =>
    intro s
    obtain ⟨k, ref⟩ := e
    simp only [List.cons_append]
    unfold redrawEach
    split
    · exact ih s
    · cases redrawStroke E s _ with
      | ok s1 => exact ih s1
      | threw s1 => rfl


theorem remoteDrawStartEach_ids (E : Host) (id : String) :
    ∀ (news : List DrawStart) (s : CanvasManager), id ∉ s.ids →
      (∀ d ∈ news, d.strokeId ≠ id) →
      id ∉ (remoteDrawStartEach E news s).ids ∧
      (∀ d ∈ news, d.strokeId ∈ (remoteDrawStartEach E news s).ids) ∧
      ∀ k ∈ s.ids, k ∈ (remoteDrawStartEach E news s).ids := by
  intro news
  induction news with
  | nil =>
    intro s h _
    exact ⟨h, fun d hd => absurd hd (List.not_mem_nil d), fun k hk => hk⟩
  | cons d rest ih =>
    intro s h hne
    have hstep : ∀ i, i ∈ (remoteDrawStart E s d).state.ids ↔ i ∈ s.ids ∨ i = d.strokeId := by
      intro i
      unfold CanvasManager.ids
      rw [remoteDrawStart_strokes]
      exact ids_mapSet _ _ _ i
    have h1 : id ∉ (remoteDrawStart E s d).state.ids := by
      rw [hstep]
      rintro (h' | h')
      · exact h h'
      · exact hne d (List.mem_cons_self _ _) h'.symm
    obtain ⟨a, b, c⟩ := ih (remoteDrawStart E s d).state h1
      (fun d' hd' => hne d' (List.mem_cons_of_mem _ hd'))
    refine ⟨a, ?_, ?_⟩
    · intro d' hd'
      rcases List.mem_cons.mp hd' with rfl | hd'
      · exact c _ ((hstep _).mpr (Or.inr rfl))
      · exact b d' hd'
    · intro k hk
      exact c k ((hstep k).mpr (Or.inl hk))

theorem redoStroke_strokes (E : Host) (s : CanvasManager) (strokeData : Stroke) :
    (redoStroke E s strokeData).state.strokes =
      mapSet s.strokes strokeData.id s.heap.length := by
  unfold redoStroke
  exact (redrawStroke_shell E _ _).2.2.2.2.2.1

/-- C15 (redo appends).  When the id of `strokeData` is not in the store, `redoStroke`,
whether its redraw of the stroke returns or throws, leaves the store with the earlier
entries in their order followed by the redone stroke as last entry; a `redraw()` of the
result draws every earlier stroke first and the redone stroke after them.  Hence, from any
state, after `undoStroke(id)` and any number of strokes started under other ids, the id is
not in the store, and `redoStroke` of data with that id puts it after all of them. -/
theorem redoStroke_appends (E : Host) (s : CanvasManager) (strokeData : Stroke)
    (h : strokeData.id ∉ s.ids) :
    (redoStroke E s strokeData).state.strokes =
        s.strokes ++ [(strokeData.id, s.heap.length)] ∧
      (redoStroke E s strokeData).state.ids = s.ids ++ [strokeData.id] ∧
      redraw E (redoStroke E s strokeData).state =
        (redrawEach E s.strokes
          ((redoStroke E s strokeData).state.ctx E .clearRect)).bind
          (redrawEach E [(strokeData.id, s.heap.length)]) ∧
      ∀ (s0 : CanvasManager) (news : List DrawStart),
        (∀ d ∈ news, d.strokeId ≠ strokeData.id) →
        (redoStroke E
            (remoteDrawStartEach E news (undoStroke E s0 strokeData.id).state)
            strokeData).state.ids =
          (remoteDrawStartEach E news (undoStroke E s0 strokeData.id).state).ids ++
            [strokeData.id] ∧
        ∀ d ∈ news,
          d.strokeId ∈ (remoteDrawStartEach E news (undoStroke E s0 strokeData.id).state).ids := by
  have hs : (redoStroke E s strokeData).state.strokes =
      s.strokes ++ [(strokeData.id, s.heap.length)] := by
    rw [redoStroke_strokes, mapSet_of_not_mem _ h]
  refine ⟨hs, ?_, ?_, ?_⟩
  · unfold CanvasManager.ids
    rw [hs]
    simp
  · unfold redraw
    have hc : ((redoStroke E s strokeData).state.ctx E .clearRect).strokes =
        (redoStroke E s strokeData).state.strokes := rfl
    rw [hs, redrawEach_append]
  · intro s0 news hne
    have hu : strokeData.id ∉ (undoStroke E s0 strokeData.id).state.ids := by
      rw [(undoStroke_state_ids E s0 strokeData.id).1]
      simp
    obtain ⟨a, b, _⟩ := remoteDrawStartEach_ids E strokeData.id news _ hu hne
    refine ⟨?_, b⟩
    unfold CanvasManager.ids at a ⊢
    rw [redoStroke_strokes, ids_mapSet_of_not_mem _ a]

theorem redoStroke_appends_witness :
    sampleFill.id ∉ sparkleManager.ids ∧
    (redoStroke sampleHost sparkleManager sampleFill).state.ids = ["remote-7", "local-0"] := by
  obtain ⟨_, h, _⟩ := redoStroke_appends sampleHost sparkleManager sampleFill (by decide)
  exact ⟨by decide, h⟩

theorem loadEach_ids : ∀ (history : List Stroke) (s : CanvasManager),
    (s.ids ++ history.map Stroke.id).Nodup →
    (loadEach history s).ids = s.ids ++ history.map Stroke.id := by
  intro history
  induction history with
  | nil => intro s _; simp [loadEach]
  | cons d rest ih =>
    intro s hnd
    have hd : d.id ∉ s.ids := by
      intro hm
      have := (List.nodup_append.mp hnd).2.2
      exact this hm (List.mem_cons_self _ _)
    have h1 : CanvasManager.ids
        { s with heap := s.heap ++ [loadObject d]
                 strokes := mapSet s.strokes d.id s.heap.length } = s.ids ++ [d.id] := by
      unfold CanvasManager.ids
      exact ids_mapSet_of_not_mem _ hd
    unfold loadEach
    rw [ih _ (by rw [h1]; simpa using hnd), h1]
    simp

/-- C16 (bootstrap replaces wholesale).  For every prior store and every history whose ids
are pairwise distinct, after `loadState(history)`, whether its redraw returns or throws,
the ids of the store in iteration order are the ids of the history in order; so no id of
the prior store that is absent from the history remains. -/
theorem loadState_replaces (E : Host) (s : CanvasManager) (history : List Stroke)
    (h : (history.map Stroke.id).Nodup) :
    (loadState E s history).state.ids = history.map Stroke.id ∧
      ∀ k ∈ s.ids, k ∉ history.map Stroke.id → k ∉ (loadState E s history).state.ids := by
  have hids : (loadState E s history).state.ids = history.map Stroke.id := by
    unfold loadState
    have hs := (redraw_shell E (loadEach history { s with strokes := [] })).2.2.2.2.2.1
    unfold CanvasManager.ids at *
    rw [hs]
    have := loadEach_ids history { s with strokes := [] } (by simpa [CanvasManager.ids] using h)
    simpa [CanvasManager.ids] using this
  refine ⟨hids, ?_⟩
  intro k _ hk
  rw [hids]
  exact hk

theorem loadState_replaces_witness :
    ([sampleFill, { sampleFill with id := "remote-3" }].map Stroke.id).Nodup ∧
    (loadState sampleHost sparkleManager
      [sampleFill, { sampleFill with id := "remote-3" }]).state.ids = ["local-0", "remote-3"] :=
  ⟨by decide, (loadState_replaces sampleHost sparkleManager
    [sampleFill, { sampleFill with id := "remote-3" }] (by decide)).1⟩

/-! ## Redraw on a store without sparkle strokes -/

theorem drawSegments_plain (E : Host) (stroke : Stroke) :
    ∀ (pts : List Point) (s : CanvasManager),
      ∃ d, drawSegments E stroke pts s = { s with data := d } := by
  intro pts
  induction pts with
  | nil => intro s; exact ⟨s.data, rfl⟩
  | cons p rest ih =>
    intro s
    cases rest with
    | nil => exact ⟨s.data, rfl⟩
    | cons q rest =>
      unfold drawSegments
      obtain ⟨d, hd⟩ := ih (drawLine E s p q stroke)
      exact ⟨d, hd⟩

theorem redrawStroke_plain (E : Host) (s : CanvasManager) (stroke : Stroke)
    (h : stroke.tool ≠ .sparkle) :
    ∃ d, redrawStroke E s stroke = .ok { s with data := d } := by
  unfold redrawStroke
  split
  · exact ⟨_, rfl⟩
  · split
    · exact ⟨s.data, rfl⟩
    · exact ⟨s.data, rfl⟩
    · simp only []
      split_ifs
      · exact ⟨_, rfl⟩
      · exact ⟨_, rfl⟩
      · exact ⟨_, rfl⟩
      · exact ⟨_, rfl⟩
      · exact ⟨_, rfl⟩
      · obtain ⟨d, hd⟩ := drawSegments_plain E stroke _ (drawPoint E s _ stroke)
        exact ⟨d, by rw [hd]; rfl⟩

theorem redrawEach_plain (E : Host) :
    ∀ (l : List (String × Nat)) (s : CanvasManager),
      (∀ k ref st, (k, ref) ∈ l → s.heap[ref]? = some st → st.tool ≠ .sparkle) →
      ∃ d, redrawEach E l s = .ok { s with data := d } := by
  intro l
  induction l with
  | nil => intro s _; exact ⟨s.data, rfl⟩
  | cons e rest ih =>
    intro s h
    obtain ⟨k, ref⟩ := e
    unfold redrawEach
    cases hh : s.heap[ref]? with
    | none =>
      simp only []
      exact ih s (fun k' r st hm => h k' r st (List.mem_cons_of_mem _ hm))
    | some stroke =>
      simp only []
      obtain ⟨d1, h1⟩ := redrawStroke_plain E s stroke (h k ref stroke (List.mem_cons_self _ _) hh)
      rw [h1]
      simp only [Outcome.bind]
      obtain ⟨d2, h2⟩ := ih { s with data := d1 }
        (fun k' r st hm => h k' r st (List.mem_cons_of_mem _ hm))
      exact ⟨d2, h2⟩

/-- On a store without sparkle strokes a redraw returns and changes only the raster. -/
theorem redraw_plain (E : Host) (s : CanvasManager) (h : NoSparkle s) :
    ∃ d, redraw E s = .ok { s with data := d } := by
  unfold redraw
  obtain ⟨d, hd⟩ := redrawEach_plain E s.strokes (s.ctx E .clearRect) h
  exact ⟨d, hd⟩

theorem finishShapePoints_isSome (E : Host) (t : Tool) (a b : Point) (ht : t.isShape = true) :
    ∃ points, finishShapePoints E t (some a) (some b) = some points := by
  cases t with
  | line => exact ⟨_, rfl⟩
  | rectangle => exact ⟨_, rfl⟩
  | square => exact ⟨_, rfl⟩
  | circle => exact ⟨_, rfl⟩
  | triangle =>
    unfold finishShapePoints
    simp only []
    split
    · exact ⟨_, rfl⟩
    · exact ⟨_, rfl⟩
  | brush => exact absurd ht (by decide)
  | eraser => exact absurd ht (by decide)
  | sparkle => exact absurd ht (by decide)
  | fill => exact absurd ht (by decide)

theorem isShape_ne_sparkle {t : Tool} (ht : t.isShape = true) : t ≠ .sparkle := by
  intro h
  rw [h] at ht
  exact absurd ht (by decide)

/-! ## Leaving the canvas -/

/-- C18, as amended (leaving the canvas commits a shape).  For every store holding no
sparkle stroke, when the `mouseleave` handler runs while an anchor-pair stroke is ACTIVE
(a shape tool selected, the current stroke of that tool with `start` and `end` set), the
handler returns and the shape is committed as on a mouse release: it is stored under its
id with the points expanded from `start` and `end` (after the earlier entries when its id
is new), and the machine is back in IDLE (`isDrawing` false, `currentStroke` null). -/
theorem mouseleave_commits (E : Host) (s : CanvasManager) (ref : Nat) (cs : Stroke)
    (a b : Point) (hd : s.isDrawing = true) (hc : s.currentStroke = some ref)
    (hh : s.heap[ref]? = some cs) (ht : s.tool.isShape = true) (hcs : cs.tool = s.tool)
    (ha : cs.start = some a) (hb : cs.end_ = some b) (hns : NoSparkle s) :
    ∃ s' points, mouseleave E s = .ok s' ∧
      finishShapePoints E s.tool (some a) (some b) = some points ∧
      s'.isDrawing = false ∧ s'.currentStroke = none ∧
      s'.strokes = mapSet s.strokes cs.id ref ∧
      s'.getStroke cs.id = some { cs with points := some points } ∧
      (cs.id ∉ s.ids → s'.ids = s.ids ++ [cs.id]) := by
  obtain ⟨points, hp⟩ := finishShapePoints_isSome E s.tool a b ht
  obtain ⟨d1, h1⟩ := redraw_plain E s hns
  have hn : ref < s.heap.length := (List.getElem?_eq_some_iff.mp hh).1
  have hns2 : NoSparkle
      { s with data := d1, heap := s.heap.set ref { cs with points := some points }
               strokes := mapSet s.strokes cs.id ref } := by
    intro k r st hm hr
    simp only at hm hr
    by_cases hrr : ref = r
    · subst hrr
      rw [List.getElem?_set_self hn] at hr
      rw [← Option.some.inj hr]
      simp only [hcs]
      exact isShape_ne_sparkle ht
    · rw [List.getElem?_set_ne hrr] at hr
      rcases mem_mapSet hm with hm | hm
      · exact hns k r st hm hr
      · exact absurd (congrArg Prod.snd hm).symm hrr
  obtain ⟨d2, h2⟩ := redraw_plain E _ hns2
  have hns3 : NoSparkle
      { s with data := d2, heap := s.heap.set ref { cs with points := some points }
               strokes := mapSet s.strokes cs.id ref, isDrawing := false
               currentStroke := none } := hns2
  obtain ⟨d3, h3⟩ := redraw_plain E _ hns3
  have e1 : mouseleave E s = (redraw E s).bind (stopDrawing E) := by
    unfold mouseleave clearPreview
    rw [if_pos ht]
  have e2 : stopDrawing E { s with data := d1 } =
      (finishShape E { s with data := d1 }).bind fun s1 =>
        clearPreview E { s1 with isDrawing := false, currentStroke := none } := by
    unfold stopDrawing
    simp [hd, ht, hc]
  have e3 : finishShape E { s with data := d1 } =
      redraw E { s with data := d1, heap := s.heap.set ref { cs with points := some points }
                        strokes := mapSet s.strokes cs.id ref } := by
    unfold finishShape
    simp only [hc, hh, ha, hb, hp]
  refine ⟨{ s with data := d3, heap := s.heap.set ref { cs with points := some points }
                   strokes := mapSet s.strokes cs.id ref, isDrawing := false
                   currentStroke := none }, points, ?_, hp, rfl, rfl, rfl, ?_, ?_⟩
  · rw [e1, h1]
    simp only [Outcome.bind]
    rw [e2, e3, h2]
    simp only [Outcome.bind]
    exact h3
  · unfold CanvasManager.getStroke
    simp only [mapGet_mapSet_self, List.getElem?_set_self hn]
  · intro hid
    unfold CanvasManager.ids
    exact ids_mapSet_of_not_mem _ hid

theorem mouseleave_commits_witness :
    NoSparkle ((startDrawing sampleHost (setTool sampleManager .rectangle) ⟨0, 0⟩ "local-1"
      "local-2").bind (fun s => draw sampleHost s ⟨4, 2⟩)).state ∧
    ∃ s' points,
      mouseleave sampleHost
        ((startDrawing sampleHost (setTool sampleManager .rectangle) ⟨0, 0⟩ "local-1"
          "local-2").bind (fun s => draw sampleHost s ⟨4, 2⟩)).state = .ok s' ∧
      finishShapePoints sampleHost .rectangle (some ⟨0, 0⟩) (some ⟨4, 2⟩) = some points ∧
      s'.isDrawing = false ∧ s'.currentStroke = none ∧
      s'.getStroke "local-1" =
        some { id := "local-1", points := some points, color := red, lineWidth := 5
               tool := .rectangle, userId := none, start := some ⟨0, 0⟩, end_ := some ⟨4, 2⟩
               fillPixels := none } := by
  have hns : NoSparkle ((startDrawing sampleHost (setTool sampleManager .rectangle) ⟨0, 0⟩
      "local-1" "local-2").bind (fun s => draw sampleHost s ⟨4, 2⟩)).state := by
    intro k r st hm
    have hs : ((startDrawing sampleHost (setTool sampleManager .rectangle) ⟨0, 0⟩ "local-1"
        "local-2").bind (fun s => draw sampleHost s ⟨4, 2⟩)).state.strokes = [] := by decide
    rw [hs] at hm
    exact absurd hm (List.not_mem_nil _)
  obtain ⟨s', points, h1, h2, h3, h4, _, h6, _⟩ :=
    mouseleave_commits sampleHost
      ((startDrawing sampleHost (setTool sampleManager .rectangle) ⟨0, 0⟩ "local-1"
        "local-2").bind (fun s => draw sampleHost s ⟨4, 2⟩)).state 0
      { id := "local-1", points := none, color := red, lineWidth := 5, tool := .rectangle
        userId := none, start := some ⟨0, 0⟩, end_ := some ⟨4, 2⟩, fillPixels := none }
      ⟨0, 0⟩ ⟨4, 2⟩ (by decide) (by decide) (by decide) (by decide) (by decide) rfl rfl hns
  exact ⟨hns, s', points, h1, h2, h3, h4, h6⟩

/-- C18 fails as stated: with the rectangle tool on an idle manager with an empty store, a
mouse down at `(0, 0)` and a move to `(4, 2)` leave a rectangle ACTIVE and the store empty;
the `mouseleave` handler then returns with the machine IDLE but with the rectangle stored
under its id, with its five points. -/
theorem mouseleave_counterexample :
    (((startDrawing sampleHost (setTool sampleManager .rectangle) ⟨0, 0⟩ "local-1"
        "local-2").bind (fun s => draw sampleHost s ⟨4, 2⟩)).state.isDrawing = true ∧
      ((startDrawing sampleHost (setTool sampleManager .rectangle) ⟨0, 0⟩ "local-1"
        "local-2").bind (fun s => draw sampleHost s ⟨4, 2⟩)).state.ids = []) ∧
    (((startDrawing sampleHost (setTool sampleManager .rectangle) ⟨0, 0⟩ "local-1"
        "local-2").bind (fun s => (draw sampleHost s ⟨4, 2⟩).bind
          (mouseleave sampleHost))).isOk = true ∧
      ((startDrawing sampleHost (setTool sampleManager .rectangle) ⟨0, 0⟩ "local-1"
        "local-2").bind (fun s => (draw sampleHost s ⟨4, 2⟩).bind
          (mouseleave sampleHost))).state.ids = ["local-1"] ∧
      (((startDrawing sampleHost (setTool sampleManager .rectangle) ⟨0, 0⟩ "local-1"
        "local-2").bind (fun s => (draw sampleHost s ⟨4, 2⟩).bind
          (mouseleave sampleHost))).state.getStroke "local-1").map
            (fun st => st.points.map List.length) = some (some 5) ∧
      ((startDrawing sampleHost (setTool sampleManager .rectangle) ⟨0, 0⟩ "local-1"
        "local-2").bind (fun s => (draw sampleHost s ⟨4, 2⟩).bind
          (mouseleave sampleHost))).state.isDrawing = false ∧
      ((startDrawing sampleHost (setTool sampleManager .rectangle) ⟨0, 0⟩ "local-1"
        "local-2").bind (fun s => (draw sampleHost s ⟨4, 2⟩).bind
          (mouseleave sampleHost))).state.currentStroke = none) := by
  decide

/-! ## Divergences from the remaining claims -/

/-- The two copies of the geometry code agree: for a shape tool and given anchors,
`finishShape` and `remoteDrawEnd` compute the same point list. -/
theorem finishShapePoints_eq_remote (E : Host) (t : Tool) (a b : Point)
    (old : Option (List Point)) (ht : t.isShape = true) :
    finishShapePoints E t (some a) (some b) = remoteDrawEndPoints E t a b old := by
  cases t with
  | line => rfl
  | rectangle => rfl
  | square => rfl
  | circle => rfl
  | triangle => rfl
  | brush => exact absurd ht (by decide)
  | eraser => exact absurd ht (by decide)
  | sparkle => exact absurd ht (by decide)
  | fill => exact absurd ht (by decide)

/-- C11 at its failing inputs.  (1) A rectangle is started at `(0, 0)` and dragged to
`(4, 2)`; the circle tool is selected before the mouse is released: `finishShape` stores,
in the stroke whose own tool is `rectangle`, the 65 points of a circle, where
`remoteDrawEnd` stores 5 points for a rectangle with the same anchors.  (2) With one
sparkle stroke of the point `(5, 5)` in the store, a line from `(0, 0)` to `(0, 0)` is
stored by `finishShape` with the extra point `(5, 5)`, and by `remoteDrawEnd`, on the same
store, with its two points. -/
theorem finishShape_depends_on_manager :
    ((((startDrawing sampleHost (setTool sampleManager .rectangle) ⟨0, 0⟩ "local-1"
        "local-2").bind (fun s => (draw sampleHost s ⟨4, 2⟩).bind
          (fun s => stopDrawing sampleHost (setTool s .circle)))).state.getStroke
            "local-1").map (fun st => (st.tool, st.points.map List.length)) =
        some (.rectangle, some 65) ∧
      (((startDrawing sampleHost (setTool sampleManager .rectangle) ⟨0, 0⟩ "local-1"
        "local-2").bind (fun s => (draw sampleHost s ⟨4, 2⟩).bind
          (fun s => stopDrawing sampleHost (setTool s .circle)))).state.getStroke
            "local-1").map (fun st => (st.start, st.end_)) =
        some (some ⟨0, 0⟩, some ⟨4, 2⟩) ∧
      ((remoteStroke sampleHost sampleManager
          { strokeId := "local-1", tool := .rectangle, color := red, lineWidth := 5
            x := 0, y := 0, userId := none } [⟨4, 2⟩]).state.getStroke "local-1").map
            (fun st => (st.start, st.end_)) =
        some (some ⟨0, 0⟩, some ⟨4, 2⟩) ∧
      ((remoteStroke sampleHost sampleManager
          { strokeId := "local-1", tool := .rectangle, color := red, lineWidth := 5
            x := 0, y := 0, userId := none } [⟨4, 2⟩]).state.getStroke "local-1").map
            (fun st => (st.tool, st.points.map List.length)) =
        some (.rectangle, some 5)) ∧
    (((localStroke sampleHost sparkleManager ⟨0, 0⟩ [] "local-1"
          "local-2").state.getStroke "local-1").map (fun st => st.points) =
        some (some [⟨0, 0⟩, ⟨0, 0⟩, ⟨5, 5⟩]) ∧
      ((remoteStroke sampleHost sparkleManager
          { strokeId := "local-1", tool := .line, color := red, lineWidth := 5
            x := 0, y := 0, userId := none } [⟨0, 0⟩]).state.getStroke "local-1").map
            (fun st => st.points) =
        some (some [⟨0, 0⟩, ⟨0, 0⟩])) := by
  decide

/-- C13 at its failing input.  The store holds the fill stroke `sampleFill`, which recorded
two pixels.  After `undoStroke` of its id and `redoStroke` of the same stroke data, the
stroke stored under the id has no `fillPixels`; redrawing the stored stroke then issues one
`drawPoint` call and writes no pixel, where redrawing the original writes its two pixels. -/
theorem redo_drops_fillPixels :
    (fillManager.getStroke "local-0").map (fun st => st.fillPixels) =
        some (some [(0, 0), (1, 1)]) ∧
    (((undoStroke logHost fillManager "local-0").bind
        (fun s => redoStroke logHost s sampleFill)).state.getStroke "local-0").map
          (fun st => st.fillPixels) = some none ∧
    (redrawStroke logHost sampleManager sampleFill).state.data =
        [255, 0, 0, 255, 0, 0, 0, 255, 9, 9, 9, 255, 255, 0, 0, 255] ∧
    (redrawStroke logHost sampleManager (redoObject sampleFill)).state.data =
        sampleManager.data ++ [1] := by
  decide

/-- C17 at its failing input.  `loadState` of a history holding the fill stroke
`sampleFill`, which recorded two pixels, stores under its id a stroke without `fillPixels`;
the redraw that ends `loadState` issues, after `clearRect`, one `drawPoint` call and
replays no pixel. -/
theorem loadState_drops_fillPixels :
    sampleFill.fillPixels = some [(0, 0), (1, 1)] ∧
    ((loadState logHost sampleManager [sampleFill]).state.getStroke "local-0").map
        (fun st => st.fillPixels) = some none ∧
    (loadState logHost sampleManager [sampleFill]).state.data = [1] := by
  decide

/-- C19 at its failing input.  The store holds one sparkle stroke of one point; with the
line tool, a mouse down at `(0, 0)` returns and leaves a line ACTIVE; the next `draw`
(mouse move to `(1, 1)`) throws. -/
theorem draw_preview_throws :
    (startDrawing sampleHost sparkleManager ⟨0, 0⟩ "local-1" "local-2").isOk = true ∧
    (draw sampleHost (startDrawing sampleHost sparkleManager ⟨0, 0⟩ "local-1"
      "local-2").state ⟨1, 1⟩).isOk = false ∧
    (draw sampleHost (startDrawing sampleHost sparkleManager ⟨0, 0⟩ "local-1"
      "local-2").state ⟨1, 1⟩).state.ids = sparkleManager.ids := by
  decide

/-- C20 at its failing input.  `busyManager` is the state reached from the idle sample
manager by a remote sparkle stroke started at `(5, 5)` and a local brush stroke started at
`(0, 0)`.  A `redraw()` there appends `(5, 5)` to the brush stroke in progress, and a
second one appends it again; under a host that logs the drawing calls, the first redraw
issues sparkle, point, line and the second sparkle, point, line, line. -/
theorem redraw_not_idempotent :
    busyManager =
      ((remoteDrawStart sampleHost sampleManager
          { strokeId := "remote-7", tool := .sparkle, color := red, lineWidth := 5
            x := 5, y := 5, userId := some "u2" }).bind
        (fun s => startDrawing sampleHost s ⟨0, 0⟩ "local-1" "local-2")).state ∧
    (busyManager.getStroke "local-1").map (fun st => st.points) = some (some [⟨0, 0⟩]) ∧
    ((redraw logHost busyManager).state.getStroke "local-1").map (fun st => st.points) =
      some (some [⟨0, 0⟩, ⟨5, 5⟩]) ∧
    (((redraw logHost busyManager).bind (redraw logHost)).state.getStroke "local-1").map
      (fun st => st.points) = some (some [⟨0, 0⟩, ⟨5, 5⟩, ⟨5, 5⟩]) ∧
    (redraw logHost busyManager).state.data = [3, 1, 2] ∧
    ((redraw logHost busyManager).bind (redraw logHost)).state.data = [3, 1, 2, 2] := by
  decide

/-! ## Redraw with no stroke in progress -/

theorem sparkleEach_idle (E : Host) (color : Color) :
    ∀ (pts : List Point) (s : CanvasManager), s.currentStroke = none →
      ∃ d, sparkleEach E color pts s = .ok { s with data := d } := by
  intro pts
  induction pts with
  | nil => intro s _; exact ⟨s.data, rfl⟩
  | cons p rest ih =>
    intro s hc
    have h1 : addSparkle E s p.x p.y color = .ok (s.ctx E (.sparkle p.x p.y color s.lineWidth)) := by
      unfold addSparkle
      simp only [CanvasManager.ctx, hc]
    unfold sparkleEach
    rw [h1]
    simp only [Outcome.bind]
    obtain ⟨d, hd⟩ := ih (s.ctx E (.sparkle p.x p.y color s.lineWidth)) hc
    exact ⟨d, hd⟩

theorem redrawStroke_idle (E : Host) (s : CanvasManager) (stroke : Stroke)
    (hc : s.currentStroke = none) :
    ∃ d, redrawStroke E s stroke = .ok { s with data := d } := by
  by_cases hs : stroke.tool = .sparkle
  · unfold redrawStroke
    split
    · exact ⟨_, rfl⟩
    · split
      · exact ⟨s.data, rfl⟩
      · exact ⟨s.data, rfl⟩
      · simp only [hs]
        exact sparkleEach_idle E _ _ s hc
  · exact redrawStroke_plain E s stroke hs

theorem redrawEach_idle (E : Host) :
    ∀ (l : List (String × Nat)) (s : CanvasManager), s.currentStroke = none →
      ∃ d, redrawEach E l s = .ok { s with data := d } := by
  intro l
  induction l with
  | nil => intro s _; exact ⟨s.data, rfl⟩
  | cons e rest ih =>
    intro s hc
    obtain ⟨k, ref⟩ := e
    unfold redrawEach
    cases hh : s.heap[ref]? with
    | none =>
      simp only []
      exact ih s hc
    | some stroke =>
      simp only []
      obtain ⟨d1, h1⟩ := redrawStroke_idle E s stroke hc
      rw [h1]
      simp only [Outcome.bind]
      obtain ⟨d2, h2⟩ := ih { s with data := d1 } hc
      exact ⟨d2, h2⟩

/-- With no stroke in progress a redraw returns and changes only the raster, whatever the
store holds. -/
theorem redraw_idle (E : Host) (s : CanvasManager) (hc : s.currentStroke = none) :
    ∃ d, redraw E s = .ok { s with data := d } := by
  unfold redraw
  obtain ⟨d, hd⟩ := redrawEach_idle E s.strokes (s.ctx E .clearRect) hc
  exact ⟨d, hd⟩

/-- On a store without sparkle strokes, `draw` on an ACTIVE shape returns, sets the `end`
of the stroke in progress and changes nothing else but the raster. -/
theorem draw_shape_plain (E : Host) (s : CanvasManager) (ref : Nat) (cs : Stroke)
    (a p : Point) (hd : s.isDrawing = true) (hc : s.currentStroke = some ref)
    (hh : s.heap[ref]? = some cs) (ht : s.tool.isShape = true) (hcs : cs.tool = s.tool)
    (ha : cs.start = some a) (hns : NoSparkle s) :
    ∃ d, draw E s p =
      .ok { s with data := d, heap := s.heap.set ref { cs with end_ := some p } } := by
  obtain ⟨w, h, data, isD, cur, sp, strokes, heap, tool, color, lw⟩ := s
  obtain ⟨cid, cpts, ccol, clw, ctool, cuid, cstart, cend, cfill⟩ := cs
  simp only at hd hc hh ht hcs ha
  subst hd hc hcs ha
  have hn : ref < heap.length := (List.getElem?_eq_some_iff.mp hh).1
  have hns1 : NoSparkle
      { width := w, height := h, data := data, isDrawing := true, currentStroke := some ref
        startPoint := sp, strokes := strokes
        heap := heap.set ref
          { id := cid, points := cpts, color := ccol, lineWidth := clw, tool := ctool
            userId := cuid, start := some a, end_ := some p, fillPixels := cfill }
        tool := ctool, color := color, lineWidth := lw } := by
    intro k r st hm hr
    simp only at hm hr
    by_cases hrr : ref = r
    · subst hrr
      rw [List.getElem?_set_self hn] at hr
      rw [← Option.some.inj hr]
      exact isShape_ne_sparkle ht
    · rw [List.getElem?_set_ne hrr] at hr
      exact hns k r st hm hr
  obtain ⟨d1, h1⟩ := redraw_plain E _ hns1
  unfold draw
  simp only [hh, ht, if_true, Bool.true_eq_false, if_false]
  unfold drawPreview clearPreview
  simp only [h1, Outcome.bind, List.getElem?_set_self hn, ht, if_true]
  exact ⟨_, rfl⟩

/-! ## Remote events and the stroke in progress -/

theorem addSparkle_idle (E : Host) (s : CanvasManager) (x y : ℚ) (color : Color)
    (hc : s.currentStroke = none) :
    addSparkle E s x y color = .ok (s.ctx E (.sparkle x y color s.lineWidth)) := by
  unfold addSparkle
  simp only [CanvasManager.ctx, hc]

/-- With no local stroke in progress, `remoteDrawStart` of any tool returns, stores the new
stroke object under its id and changes no other stroke object. -/
theorem remoteDrawStart_idle (E : Host) (s : CanvasManager) (d : DrawStart)
    (hc : s.currentStroke = none) :
    ∃ data' stroke, remoteDrawStart E s d =
      .ok { s with data := data', heap := s.heap ++ [stroke]
                   strokes := mapSet s.strokes d.strokeId s.heap.length } := by
  unfold remoteDrawStart
  simp only []
  by_cases h1 : d.tool = .sparkle
  · rw [if_pos h1, addSparkle_idle E _ _ _ _ (by exact hc)]
    exact ⟨_, _, rfl⟩
  · rw [if_neg h1]
    by_cases h2 : d.tool.isShape = false
    · rw [if_pos h2]
      exact ⟨_, _, rfl⟩
    · rw [if_neg h2]
      exact ⟨s.data, _, rfl⟩

/-- With no local stroke in progress, `remoteDrawMove` on a stored sparkle stroke returns
and changes only the raster. -/
theorem remoteDrawMove_sparkle_idle (E : Host) (s : CanvasManager) (d : DrawMove) (n : Nat)
    (st : Stroke) (hm : mapGet s.strokes d.strokeId = some n) (hh : s.heap[n]? = some st)
    (ht : st.tool = .sparkle) (hc : s.currentStroke = none) :
    ∃ data', remoteDrawMove E s d = .ok { s with data := data' } := by
  unfold remoteDrawMove
  simp only [hm, hh, ht, if_true]
  rw [addSparkle_idle E s _ _ _ hc]
  exact ⟨_, rfl⟩

/-- C21 at its failing inputs.  (1) A local brush stroke `local-1` is in progress with the
single point `(0, 0)`: `remoteDrawStart` of a sparkle stroke `remote-7` at `(5, 5)` returns
with `(5, 5)` appended to `local-1`, and `remoteDrawMove` of `remote-7` to `(6, 6)` appends
`(6, 6)` to `local-1` and leaves `remote-7` with its first point only.  (2) A local line
`local-1` is in progress (no `points` yet): `remoteDrawStart` of the same sparkle stroke
throws, and so does `remoteDrawMove` of a sparkle stroke already in the store.  (3) In
`busyManager` (sparkle stroke `remote-7` in the store, brush stroke `local-1` in progress)
a remote line `remote-8` is started at `(1, 1)`: its `remoteDrawMove` and its
`remoteDrawEnd` each append the sparkle point `(5, 5)` to `local-1`. -/
theorem remote_events_touch_current_stroke :
    (((startDrawing sampleHost sampleManager ⟨0, 0⟩ "local-1" "local-2").state.getStroke
          "local-1").map (fun st => st.points) = some (some [⟨0, 0⟩]) ∧
      (remoteDrawStart sampleHost
          (startDrawing sampleHost sampleManager ⟨0, 0⟩ "local-1" "local-2").state
          { strokeId := "remote-7", tool := .sparkle, color := red, lineWidth := 5
            x := 5, y := 5, userId := some "u2" }).isOk = true ∧
      ((remoteDrawStart sampleHost
          (startDrawing sampleHost sampleManager ⟨0, 0⟩ "local-1" "local-2").state
          { strokeId := "remote-7", tool := .sparkle, color := red, lineWidth := 5
            x := 5, y := 5, userId := some "u2" }).state.getStroke "local-1").map
            (fun st => st.points) = some (some [⟨0, 0⟩, ⟨5, 5⟩]) ∧
      ((remoteDrawMove sampleHost
          (remoteDrawStart sampleHost
            (startDrawing sampleHost sampleManager ⟨0, 0⟩ "local-1" "local-2").state
            { strokeId := "remote-7", tool := .sparkle, color := red, lineWidth := 5
              x := 5, y := 5, userId := some "u2" }).state
          { strokeId := "remote-7", x := 6, y := 6 }).state.getStroke "local-1").map
            (fun st => st.points) = some (some [⟨0, 0⟩, ⟨5, 5⟩, ⟨6, 6⟩]) ∧
      ((remoteDrawMove sampleHost
          (remoteDrawStart sampleHost
            (startDrawing sampleHost sampleManager ⟨0, 0⟩ "local-1" "local-2").state
            { strokeId := "remote-7", tool := .sparkle, color := red, lineWidth := 5
              x := 5, y := 5, userId := some "u2" }).state
          { strokeId := "remote-7", x := 6, y := 6 }).state.getStroke "remote-7").map
            (fun st => st.points) = some (some [⟨5, 5⟩])) ∧
    ((startDrawing sampleHost (setTool sampleManager .line) ⟨0, 0⟩ "local-1"
          "local-2").isOk = true ∧
      (remoteDrawStart sampleHost
          (startDrawing sampleHost (setTool sampleManager .line) ⟨0, 0⟩ "local-1"
            "local-2").state
          { strokeId := "remote-7", tool := .sparkle, color := red, lineWidth := 5
            x := 5, y := 5, userId := some "u2" }).isOk = false ∧
      (remoteDrawMove sampleHost
          (startDrawing sampleHost sparkleManager ⟨0, 0⟩ "local-1" "local-2").state
          { strokeId := "remote-7", x := 6, y := 6 }).isOk = false) ∧
    ((busyManager.getStroke "local-1").map (fun st => st.points) = some (some [⟨0, 0⟩]) ∧
      ((remoteDrawStart logHost busyManager
          { strokeId := "remote-8", tool := .line, color := red, lineWidth := 5
            x := 1, y := 1, userId := some "u3" }).state.getStroke "local-1").map
            (fun st => st.points) = some (some [⟨0, 0⟩]) ∧
      ((remoteDrawMove logHost
          (remoteDrawStart logHost busyManager
            { strokeId := "remote-8", tool := .line, color := red, lineWidth := 5
              x := 1, y := 1, userId := some "u3" }).state
          { strokeId := "remote-8", x := 2, y := 2 }).state.getStroke "local-1").map
            (fun st => st.points) = some (some [⟨0, 0⟩, ⟨5, 5⟩]) ∧
      ((remoteDrawEnd logHost
          (remoteDrawMove logHost
            (remoteDrawStart logHost busyManager
              { strokeId := "remote-8", tool := .line, color := red, lineWidth := 5
                x := 1, y := 1, userId := some "u3" }).state
            { strokeId := "remote-8", x := 2, y := 2 }).state
          "remote-8").state.getStroke "local-1").map
            (fun st => st.points) = some (some [⟨0, 0⟩, ⟨5, 5⟩, ⟨5, 5⟩])) := by
  decide

end Canvas
